import Mathlib

/-!
# rf_sim: the propagation engine of `rf_simulator.cpp`

A shallow embedding of `Environment` and its member functions, of the text
written by `saveSignalStrength` and of `getColorFromSignal` of
`rf_visualizer.cpp`, followed by the properties proved about them.

Conventions of the embedding.

* C++ `int` is `Int`.  Nothing in the engine wraps around on purpose, so the
  embedding describes every run in which no `int` operation overflows.
* C++ `double` is `Dbl`: a real number or the not-a-number value.  The
  operations of `Dbl` are those of real arithmetic, without rounding and without
  the infinities; not-a-number is kept because the engine's comparisons
  (`== 0`, `> 0`) are false on it.  A property proved with them is a property
  over real arithmetic and is stated as such.
* Where rounding matters the engine is embedded a second time with the double
  operations as a parameter `Arith`: `Arith.exact` gives back the first
  embedding, `Arith.ieee` rounds every result to IEEE 754 binary64 (to nearest,
  ties to even), so that results below the smallest double become `0`.  A
  result beyond the largest double, an infinity in C++, has no value in `Dbl`
  and is rendered as not-a-number.
* `std::vector<std::vector<T>>` is `List (List T)`, row `y` first, column `x`
  second.  `v[y][x]` is read with `List.getD` and written with `List.set`; every
  access in the source sits behind `isValid` or a loop bound, so under the
  dimension invariant `Environment.WF` neither the default of `getD` nor the
  silent no-op of `set` is ever reached.
-/

namespace RfSim

/-! ## Data model -/

/-- The value type `struct Point { int x, y; }`. -/
structure Point where
  x : Int
  y : Int
deriving DecidableEq, Repr

/-- A C++ `double` over real arithmetic: a real value or not-a-number. -/
inductive Dbl where
  | num (r : ℝ)
  | nan

namespace Dbl

/-- Addition of doubles, `a + b`. -/
def add : Dbl → Dbl → Dbl
  | num a, num b => num (a + b)
  | _, _ => nan

/-- Subtraction of doubles, `a - b`. -/
def sub : Dbl → Dbl → Dbl
  | num a, num b => num (a - b)
  | _, _ => nan

/-- Multiplication of doubles, `a * b`. -/
def mul : Dbl → Dbl → Dbl
  | num a, num b => num (a * b)
  | _, _ => nan

/-- Division of doubles, `a / b`; the engine only divides by the literal `10.0`. -/
noncomputable def div : Dbl → Dbl → Dbl
  | num a, num b => if b = 0 then nan else num (a / b)
  | _, _ => nan

/-- The function `std::log10`: not-a-number on a negative argument.  The
argument zero (minus infinity in C++) lies outside real arithmetic and is
mapped to not-a-number too; the engine guards both calls against it. -/
noncomputable def log10 : Dbl → Dbl
  | num a => if 0 < a then num (Real.logb 10 a) else nan
  | nan => nan

/-- The function `std::pow(base, exponent)` for a positive base (the engine
only uses base `10`). -/
noncomputable def pow : Dbl → Dbl → Dbl
  | num a, num b => if 0 < a then num (a ^ b) else nan
  | _, _ => nan

/-- The function `std::hypot` on two `int` arguments (promoted to `double`). -/
noncomputable def hypot (a b : Int) : Dbl :=
  num (Real.sqrt ((a : ℝ) ^ 2 + (b : ℝ) ^ 2))

/-- The comparison `d == 0`; false on not-a-number. -/
def eqZero : Dbl → Prop
  | num a => a = 0
  | nan => False

/-- The comparison `d > 0`; false on not-a-number. -/
def gtZero : Dbl → Prop
  | num a => 0 < a
  | nan => False

noncomputable instance (d : Dbl) : Decidable d.eqZero := Classical.propDecidable _

noncomputable instance (d : Dbl) : Decidable d.gtZero := Classical.propDecidable _

end Dbl

/-- The constant `PATH_LOSS_EXPONENT = 4.0`. -/
def PATH_LOSS_EXPONENT : Dbl := Dbl.num 4

/-- The constant `OBSTACLE_ATTENUATION = 25.0`. -/
def OBSTACLE_ATTENUATION : Dbl := Dbl.num 25

/-- The value type `struct AccessPoint { Point location; double txPower; }`. -/
structure AccessPoint where
  location : Point
  txPower : Dbl

/-- The data members of `class Environment`. -/
structure Environment where
  width : Int
  height : Int
  obstacles : List (List Bool)
  signalStrength : List (List Dbl)
  accessPoints : List AccessPoint

/-- The write `grid[y][x] = v` on a vector of vectors. -/
def writeCell {α : Type} (grid : List (List α)) (x y : Nat) (v : α) : List (List α) :=
  grid.set y ((grid.getD y []).set x v)

/-- The read `grid[y][x]` on a vector of vectors; `none` where the C++ index is
out of range. -/
def readCell {α : Type} (grid : List (List α)) (x y : Nat) : Option α :=
  (grid.getD y [])[x]?

/-- The constructor `Environment::Environment(int w, int h)`: both grids get
`height` rows of `width` entries, `false` and `0.0`. -/
def Environment.new (w h : Int) : Environment :=
  { width := w
    height := h
    obstacles := List.replicate h.toNat (List.replicate w.toNat false)
    signalStrength := List.replicate h.toNat (List.replicate w.toNat (Dbl.num 0))
    accessPoints := [] }

/-- A grid of `h` rows of `w` entries each. -/
def GridDims {α : Type} (grid : List (List α)) (w h : Nat) : Prop :=
  grid.length = h ∧ ∀ row ∈ grid, row.length = w

instance {α : Type} (grid : List (List α)) (w h : Nat) : Decidable (GridDims grid w h) := by
  unfold GridDims
  infer_instance

/-- The dimension invariant of an environment: both grids consist of `height`
rows of `width` entries.  It holds for every constructed environment and is
what makes the C++ indexing defined. -/
def Environment.WF (env : Environment) : Prop :=
  0 ≤ env.width ∧ 0 ≤ env.height ∧
  GridDims env.obstacles env.width.toNat env.height.toNat ∧
  GridDims env.signalStrength env.width.toNat env.height.toNat

instance (env : Environment) : Decidable env.WF := by
  unfold Environment.WF
  infer_instance

/-! ## Grid model -/

/-- The member `Environment::isValid`. -/
def isValid (env : Environment) (x y : Int) : Bool :=
  decide (x ≥ 0) && decide (x < env.width) && decide (y ≥ 0) && decide (y < env.height)

/-- The member `Environment::isObstacle`: `isValid(x, y) && obstacles[y][x]`. -/
def isObstacle (env : Environment) (x y : Int) : Bool :=
  isValid env x y && (env.obstacles.getD y.toNat []).getD x.toNat false

/-- The member `Environment::addObstacle`. -/
def addObstacle (env : Environment) (x y : Int) : Environment :=
  if isValid env x y then
    { env with obstacles := writeCell env.obstacles x.toNat y.toNat true }
  else env

/-- The member `Environment::addAccessPoint`; `push_back` appends at the end. -/
def addAccessPoint (env : Environment) (x y : Int) (txPower : Dbl) : Environment :=
  if isValid env x y then
    { env with accessPoints := env.accessPoints ++ [⟨⟨x, y⟩, txPower⟩] }
  else env

/-! ## Visibility tester -/

/-- The `for (; n > 0; --n)` loop of `hasObstacleBetween`, with the loop
variables `x`, `y`, `error` as arguments and `dx`, `dy` already doubled.  The
first component is what the function returns; the second is the log of the
cells handed to `isObstacle`, in order. -/
def losLoop (obs : Int → Int → Bool) (x_inc y_inc dx dy : Int) :
    Nat → Int → Int → Int → Bool × List Point
  | 0, _, _, _ => (false, [])
  | n + 1, x, y, error =>
    if obs x y then (true, [⟨x, y⟩])
    else
      let rest :=
        if error > 0 then losLoop obs x_inc y_inc dx dy n (x + x_inc) y (error - dy)
        else losLoop obs x_inc y_inc dx dy n x (y + y_inc) (error + dx)
      (rest.1, ⟨x, y⟩ :: rest.2)

/-- The body of `hasObstacleBetween` for an arbitrary cell test `obs`: the
initialisation of the locals followed by the loop.  The loop counts `n` down to
zero, so it runs `n.toNat` times unless it returns early. -/
def losRun (obs : Int → Int → Bool) (a b : Point) : Bool × List Point :=
  let dx := |b.x - a.x|
  let dy := |b.y - a.y|
  let n := 1 + dx + dy
  let x_inc : Int := if b.x > a.x then 1 else -1
  let y_inc : Int := if b.y > a.y then 1 else -1
  let error := dx - dy
  losLoop obs x_inc y_inc (dx * 2) (dy * 2) n.toNat a.x a.y error

/-- The member `Environment::hasObstacleBetween`. -/
def hasObstacleBetween (env : Environment) (a b : Point) : Bool :=
  (losRun (isObstacle env) a b).1

/-- The cells that `hasObstacleBetween(a, b)` hands to `isObstacle`, in order. -/
def testedCells (env : Environment) (a b : Point) : List Point :=
  (losRun (isObstacle env) a b).2

/-- The cells the loop of `hasObstacleBetween(a, b)` tests on a grid without
obstacles: the full walked path from `a` to `b`. -/
def walkedPath (a b : Point) : List Point :=
  (losRun (fun _ _ => false) a b).2

/-- The value of `error` when the walk has made `i` steps in `x` and `j` steps
in `y`, for the absolute differences `Dx`, `Dy` of the end points. -/
def lineErr (Dx Dy i j : Int) : Int := Dx - Dy + 2 * Dx * j - 2 * Dy * i

/-! ## Propagation model -/

/-- The member `Environment::calculateSignalStrength`. -/
noncomputable def calculateSignalStrength (env : Environment) (receiver : Point)
    (ap : AccessPoint) : Dbl :=
  let distance := Dbl.hypot (ap.location.x - receiver.x) (ap.location.y - receiver.y)
  if distance.eqZero then ap.txPower
  else
    let pathLoss := Dbl.mul (Dbl.mul (Dbl.num 10) PATH_LOSS_EXPONENT) (Dbl.log10 distance)
    let signal := Dbl.sub ap.txPower pathLoss
    if hasObstacleBetween env ap.location receiver then Dbl.sub signal OBSTACLE_ATTENUATION
    else signal

/-! ## Aggregator -/

/-- The inner loop of `simulate` over the access points: `totalSignal` after
`totalSignal += std::pow(10, calculateSignalStrength(receiver, ap) / 10.0)` for
every access point in order, starting from `0.0`. -/
noncomputable def totalSignal (env : Environment) (receiver : Point) : Dbl :=
  env.accessPoints.foldl
    (fun total ap =>
      Dbl.add total
        (Dbl.pow (Dbl.num 10) (Dbl.div (calculateSignalStrength env receiver ap) (Dbl.num 10))))
    (Dbl.num 0)

/-- The body of the two nested loops of `simulate` for the cell `(x, y)`. -/
noncomputable def simulateCell (env : Environment) (x y : Nat) : Environment :=
  if isObstacle env x y then env
  else
    let total := totalSignal env ⟨x, y⟩
    if total.gtZero then
      { env with
        signalStrength :=
          writeCell env.signalStrength x y (Dbl.mul (Dbl.num 10) (Dbl.log10 total)) }
    else env

/-- The loop `for (int x = 0; x < width; ++x)` of `simulate` in row `y`. -/
noncomputable def simulateRow (env : Environment) (y : Nat) : Environment :=
  (List.range env.width.toNat).foldl (fun e x => simulateCell e x y) env

/-- The member `Environment::simulate`: the loop over the rows. -/
noncomputable def simulate (env : Environment) : Environment :=
  (List.range env.height.toNat).foldl simulateRow env

/-! ## Sequences of calls -/

/-- One call of a public member function of `Environment`. -/
inductive Call where
  | addObstacle (x y : Int)
  | addAccessPoint (x y : Int) (txPower : Dbl)
  | simulate

/-- The environment after one call. -/
noncomputable def Call.run (env : Environment) : Call → Environment
  | Call.addObstacle x y => RfSim.addObstacle env x y
  | Call.addAccessPoint x y txPower => RfSim.addAccessPoint env x y txPower
  | Call.simulate => RfSim.simulate env

/-- The environment after a sequence of calls, first call first. -/
noncomputable def runCalls (env : Environment) (calls : List Call) : Environment :=
  calls.foldl Call.run env

/-! ## Auxiliary definitions for the proofs -/

/-- The effect of the loop body of `simulate` for the cell `(x, y)` on the
signal grid alone; the tests read the other members of `env` only. -/
noncomputable def cellStep (env : Environment) (x y : Nat) (grid : List (List Dbl)) :
    List (List Dbl) :=
  if isObstacle env x y then grid
  else if (totalSignal env ⟨x, y⟩).gtZero then
    writeCell grid x y (Dbl.mul (Dbl.num 10) (Dbl.log10 (totalSignal env ⟨x, y⟩)))
  else grid

/-- The value the loop body of `simulate` leaves in the cell `(x, y)` that held
`old` before. -/
noncomputable def simValue (env : Environment) (x y : Nat) (old : Dbl) : Dbl :=
  if isObstacle env x y then old
  else if (totalSignal env ⟨x, y⟩).gtZero then
    Dbl.mul (Dbl.num 10) (Dbl.log10 (totalSignal env ⟨x, y⟩))
  else old

/-- The real value of a double; `0` for not-a-number. -/
def Dbl.toReal : Dbl → ℝ
  | Dbl.num r => r
  | Dbl.nan => 0

/-! ## The two test scenarios of the specification -/

/-- The known scenario: a 10x10 grid without obstacles and one transmitter of
power `100` at `(0, 0)`. -/
def knownScenario : Environment :=
  addAccessPoint (Environment.new 10 10) 0 0 (Dbl.num 100)

/-- The obstacle penalty scenario: the known scenario with the cells `(1, 0)`
and `(2, 0)` marked as obstacles. -/
def penaltyScenario : Environment :=
  addAccessPoint (addObstacle (addObstacle (Environment.new 10 10) 1 0) 2 0) 0 0 (Dbl.num 100)

/-! ## Serializer -/

/-- The token `NaN` that `saveSignalStrength` writes for an obstacle cell. -/
def nanToken : List Char := ['N', 'a', 'N']

/-- What `saveSignalStrength` writes for the cell `(x, y)`: `"NaN "` for an
obstacle cell, the formatted `signalStrength[y][x]` and a blank otherwise.  The
text that `operator<<` produces for a `double` is the parameter `fmt`. -/
def saveCell (fmt : Dbl → List Char) (env : Environment) (x y : Nat) : List Char :=
  if isObstacle env x y then nanToken ++ [' ']
  else fmt ((env.signalStrength.getD y []).getD x (Dbl.num 0)) ++ [' ']

/-- The loop `for (int x = 0; x < width; ++x)` of `saveSignalStrength` in row
`y`, followed by the line break; `out` is the text written so far. -/
def saveRow (fmt : Dbl → List Char) (env : Environment) (out : List Char) (y : Nat) :
    List Char :=
  (List.range env.width.toNat).foldl (fun o x => o ++ saveCell fmt env x y) out ++ ['\n']

/-- The member `Environment::saveSignalStrength`: the text written to the
stream of an opened file. -/
def saveSignalStrength (fmt : Dbl → List Char) (env : Environment) : List Char :=
  (List.range env.height.toNat).foldl (saveRow fmt env) []

/-- The lines of a text: the pieces ended by a line break. -/
def linesOf (text : List Char) : List (List Char) :=
  (text.splitOnP (fun c => c == '\n')).dropLast

/-- The tokens of a line: the non-empty pieces between white space. -/
def tokensOf (line : List Char) : List (List Char) :=
  (line.splitOnP Char.isWhitespace).filter (fun t => !t.isEmpty)

/-- The token `saveSignalStrength` writes for the cell `(x, y)`. -/
def cellToken (fmt : Dbl → List Char) (env : Environment) (x y : Nat) : List Char :=
  if isObstacle env x y then nanToken
  else fmt ((env.signalStrength.getD y []).getD x (Dbl.num 0))

/-! ## Visualizer: `getColorFromSignal` of `rf_visualizer.cpp` -/

/-- The colour type `sf::Color` of the SFML library, whose constructor is
`Color(Uint8 red, Uint8 green, Uint8 blue, Uint8 alpha = 255)`; each channel is
an 8-bit value, `0` to `255`. -/
structure Color where
  r : Nat
  g : Nat
  b : Nat
  a : Nat
deriving DecidableEq, Repr

/-- The implicit conversion of an `int` argument to the 8-bit channel type
`sf::Uint8`: reduction modulo `256`. -/
def toUint8 (i : Int) : Nat := (i % 256).toNat

/-- The test `std::isnan`. -/
def Dbl.isNaN : Dbl → Bool
  | Dbl.num _ => false
  | Dbl.nan => true

/-- The conversion `static_cast<int>` of a double: truncation toward zero (for a
value in the range of `int`; it is never applied to not-a-number). -/
noncomputable def Dbl.toInt : Dbl → Int
  | Dbl.num v => if 0 ≤ v then ⌊v⌋ else ⌈v⌉
  | Dbl.nan => 0

/-- The function `getColorFromSignal`. -/
noncomputable def getColorFromSignal (signal : Dbl) : Color :=
  if signal.isNaN then ⟨toUint8 128, toUint8 128, toUint8 128, 255⟩
  else
    let minSignal := Dbl.num (-100)
    let maxSignal := Dbl.num 0
    let normalized := Dbl.div (Dbl.sub signal minSignal) (Dbl.sub maxSignal minSignal)
    let r := (Dbl.mul (Dbl.sub (Dbl.num 1) normalized) (Dbl.num 255)).toInt
    let g := (Dbl.mul normalized (Dbl.num 255)).toInt
    ⟨toUint8 r, toUint8 g, toUint8 0, 255⟩

/-! ## Invariants -/

/-- Every stored transmitter is in bounds. -/
def TransmittersValid (env : Environment) : Prop :=
  ∀ ap ∈ env.accessPoints, isValid env ap.location.x ap.location.y = true

/-! ## The engine over an arbitrary double arithmetic

`calculateSignalStrength`, `totalSignal` and `simulate` above use the exact
operations of `Dbl`.  Below the same code is embedded once more with the double
operations as a parameter, so that a property can be stated for every
arithmetic, and with IEEE 754 binary64 rounding as one instance. -/

/-- An interpretation of the double operations used by the engine: `+`, `-`,
`*`, `/`, `std::log10`, `std::pow` and `std::hypot` on two `int` arguments.  The
comparisons `== 0` and `> 0` are exact in every arithmetic and stay
`Dbl.eqZero` and `Dbl.gtZero`. -/
structure Arith where
  add : Dbl → Dbl → Dbl
  sub : Dbl → Dbl → Dbl
  mul : Dbl → Dbl → Dbl
  div : Dbl → Dbl → Dbl
  log10 : Dbl → Dbl
  pow : Dbl → Dbl → Dbl
  hypot : Int → Int → Dbl

/-- Exact real arithmetic: the operations of `Dbl`. -/
noncomputable def Arith.exact : Arith :=
  { add := Dbl.add
    sub := Dbl.sub
    mul := Dbl.mul
    div := Dbl.div
    log10 := Dbl.log10
    pow := Dbl.pow
    hypot := Dbl.hypot }

/-- Rounding of a real to the nearest integer, ties to the even integer. -/
noncomputable def roundHalfEven (t : ℝ) : Int :=
  if t - ⌊t⌋ < 1 / 2 then ⌊t⌋
  else if 1 / 2 < t - ⌊t⌋ then ⌊t⌋ + 1
  else if ⌊t⌋ % 2 = 0 then ⌊t⌋
  else ⌊t⌋ + 1

/-- The spacing of the binary64 numbers at the magnitude `m`: `2 ^ (e - 52)`
where `2 ^ e ≤ m < 2 ^ (e + 1)`, with `e` not below `-1022` (the subnormal
numbers are spaced `2 ^ (-1074)` apart). -/
noncomputable def quantum64 (m : ℝ) : ℝ :=
  (2 : ℝ) ^ (max (Int.log 2 m) (-1022) - 52)

/-- Rounding of a real to IEEE 754 binary64, to nearest with ties to even.  A
magnitude that rounds to `2 ^ 1024` or more overflows; the infinity it becomes
in C++ is outside `Dbl` and is rendered as not-a-number. -/
noncomputable def round64 (r : ℝ) : Dbl :=
  if (roundHalfEven (|r| / quantum64 |r|) : ℝ) * quantum64 |r| < (2 : ℝ) ^ (1024 : ℕ) then
    Dbl.num
      (if r < 0 then -((roundHalfEven (|r| / quantum64 |r|) : ℝ) * quantum64 |r|)
       else (roundHalfEven (|r| / quantum64 |r|) : ℝ) * quantum64 |r|)
  else Dbl.nan

/-- Rounding of the exact result of a double operation. -/
noncomputable def Dbl.rn : Dbl → Dbl
  | Dbl.num r => round64 r
  | Dbl.nan => Dbl.nan

/-- IEEE 754 binary64 arithmetic: every operation is the exact operation
followed by rounding to nearest.  This is what the standard prescribes for
`+`, `-`, `*` and `/`; the library functions `std::log10`, `std::pow` and
`std::hypot` are taken as correctly rounded too. -/
noncomputable def Arith.ieee : Arith :=
  { add := fun a b => (Dbl.add a b).rn
    sub := fun a b => (Dbl.sub a b).rn
    mul := fun a b => (Dbl.mul a b).rn
    div := fun a b => (Dbl.div a b).rn
    log10 := fun a => (Dbl.log10 a).rn
    pow := fun a b => (Dbl.pow a b).rn
    hypot := fun a b => (Dbl.hypot a b).rn }

/-- The member `Environment::calculateSignalStrength` in the arithmetic `A`. -/
noncomputable def calculateSignalStrengthIn (A : Arith) (env : Environment) (receiver : Point)
    (ap : AccessPoint) : Dbl :=
  let distance := A.hypot (ap.location.x - receiver.x) (ap.location.y - receiver.y)
  if distance.eqZero then ap.txPower
  else
    let pathLoss := A.mul (A.mul (Dbl.num 10) PATH_LOSS_EXPONENT) (A.log10 distance)
    let signal := A.sub ap.txPower pathLoss
    if hasObstacleBetween env ap.location receiver then A.sub signal OBSTACLE_ATTENUATION
    else signal

/-- The inner loop of `simulate` over the access points in the arithmetic `A`:
`totalSignal += std::pow(10, calculateSignalStrength(receiver, ap) / 10.0)` in
the order of the collection, starting from `0.0`. -/
noncomputable def totalSignalIn (A : Arith) (env : Environment) (receiver : Point) : Dbl :=
  env.accessPoints.foldl
    (fun total ap =>
      A.add total
        (A.pow (Dbl.num 10) (A.div (calculateSignalStrengthIn A env receiver ap) (Dbl.num 10))))
    (Dbl.num 0)

/-- The body of the two nested loops of `simulate` for the cell `(x, y)` in the
arithmetic `A`. -/
noncomputable def simulateCellIn (A : Arith) (env : Environment) (x y : Nat) : Environment :=
  if isObstacle env x y then env
  else
    let total := totalSignalIn A env ⟨x, y⟩
    if total.gtZero then
      { env with
        signalStrength :=
          writeCell env.signalStrength x y (A.mul (Dbl.num 10) (A.log10 total)) }
    else env

/-- The loop over `x` of `simulate` in row `y`, in the arithmetic `A`. -/
noncomputable def simulateRowIn (A : Arith) (env : Environment) (y : Nat) : Environment :=
  (List.range env.width.toNat).foldl (fun e x => simulateCellIn A e x y) env

/-- The member `Environment::simulate` in the arithmetic `A`. -/
noncomputable def simulateIn (A : Arith) (env : Environment) : Environment :=
  (List.range env.height.toNat).foldl (simulateRowIn A) env

/-- The effect of the loop body of `simulateIn` on the signal grid alone. -/
noncomputable def cellStepIn (A : Arith) (env : Environment) (x y : Nat)
    (grid : List (List Dbl)) : List (List Dbl) :=
  if isObstacle env x y then grid
  else if (totalSignalIn A env ⟨x, y⟩).gtZero then
    writeCell grid x y (A.mul (Dbl.num 10) (A.log10 (totalSignalIn A env ⟨x, y⟩)))
  else grid

/-- The value the loop body of `simulateIn` leaves in the cell `(x, y)` that
held `old` before. -/
noncomputable def simValueIn (A : Arith) (env : Environment) (x y : Nat) (old : Dbl) : Dbl :=
  if isObstacle env x y then old
  else if (totalSignalIn A env ⟨x, y⟩).gtZero then
    A.mul (Dbl.num 10) (A.log10 (totalSignalIn A env ⟨x, y⟩))
  else old

/-! ## A scenario for the order of the transmitters -/

/-- A 3x2 grid without obstacles and one transmitter, of power `95` at `(2, 1)`. -/
def colocatedScenario : Environment :=
  addAccessPoint (Environment.new 3 2) 2 1 (Dbl.num 95)

/-- A 1x1 grid without obstacles whose only transmitter, at `(0, 0)`, has the
power `p`. -/
def singleCellScenario (p : Dbl) : Environment :=
  addAccessPoint (Environment.new 1 1) 0 0 p

/-! ## The loop of the visibility tester -/

theorem losLoop_free_length (xi yi dx dy : Int) (n : Nat) (x y e : Int) :
    (losLoop (fun _ _ => false) xi yi dx dy n x y e).2.length = n := by
  induction n generalizing x y e with
  | zero => simp [losLoop]
  | succ n ih =>
    by_cases he : e > 0 <;> simp [losLoop, he, ih]

theorem losLoop_fst_iff (obs : Int → Int → Bool) (xi yi dx dy : Int) (n : Nat) (x y e : Int) :
    (losLoop obs xi yi dx dy n x y e).1 = true ↔
      ∃ p ∈ (losLoop (fun _ _ => false) xi yi dx dy n x y e).2, obs p.x p.y = true := by
  induction n generalizing x y e with
  | zero => simp [losLoop]
  | succ n ih =>
    by_cases h : obs x y = true
    · simp only [losLoop, h, if_true, true_iff]
      exact ⟨⟨x, y⟩, by simp, h⟩
    · by_cases he : e > 0
      · simp only [losLoop, h, he, if_true, if_false, Bool.false_eq_true, List.mem_cons,
          exists_eq_or_imp, false_or]
        exact ih _ _ _
      · simp only [losLoop, h, he, if_false, Bool.false_eq_true, List.mem_cons,
          exists_eq_or_imp, false_or]
        exact ih _ _ _

theorem losLoop_snd_of_clear (obs : Int → Int → Bool) (xi yi dx dy : Int) (n : Nat)
    (x y e : Int)
    (h : ∀ p ∈ (losLoop obs xi yi dx dy n x y e).2, obs p.x p.y = false) :
    (losLoop obs xi yi dx dy n x y e).2 =
      (losLoop (fun _ _ => false) xi yi dx dy n x y e).2 := by
  induction n generalizing x y e with
  | zero => simp [losLoop]
  | succ n ih =>
    by_cases ho : obs x y = true
    · exfalso
      have := h ⟨x, y⟩ (by simp [losLoop, ho])
      simp [ho] at this
    · by_cases he : e > 0
      · simp only [losLoop, ho, he, if_true, if_false, Bool.false_eq_true] at h ⊢
        rw [ih _ _ _ (fun p hp => h p (List.mem_cons_of_mem _ hp))]
      · simp only [losLoop, ho, he, if_false, Bool.false_eq_true] at h ⊢
        rw [ih _ _ _ (fun p hp => h p (List.mem_cons_of_mem _ hp))]

/-- The free walk from the state reached after `i` steps in `x` and `j` steps
in `y`: it ends in the cell `(Dx, Dy)` steps away from the start, and it
visits exactly the cells ahead whose error value lies in the band
`(-2 Dy, 2 Dx]`. -/
theorem losLoop_free_spec (xi yi Dx Dy ax ay : Int) (hDx : 0 ≤ Dx) (hDy : 0 ≤ Dy) :
    ∀ (n : Nat) (i j : Int), 0 ≤ i → i ≤ Dx → 0 ≤ j → j ≤ Dy →
      (n : Int) = (Dx - i) + (Dy - j) + 1 →
      -(2 * Dy) < lineErr Dx Dy i j → lineErr Dx Dy i j ≤ 2 * Dx →
      (losLoop (fun _ _ => false) xi yi (Dx * 2) (Dy * 2) n (ax + xi * i) (ay + yi * j)
          (lineErr Dx Dy i j)).2.getLast? = some ⟨ax + xi * Dx, ay + yi * Dy⟩ ∧
      ∀ p, p ∈ (losLoop (fun _ _ => false) xi yi (Dx * 2) (Dy * 2) n (ax + xi * i)
          (ay + yi * j) (lineErr Dx Dy i j)).2 ↔
        ∃ i' j' : Int, i ≤ i' ∧ i' ≤ Dx ∧ j ≤ j' ∧ j' ≤ Dy ∧
          -(2 * Dy) < lineErr Dx Dy i' j' ∧ lineErr Dx Dy i' j' ≤ 2 * Dx ∧
          p = ⟨ax + xi * i', ay + yi * j'⟩ := by
  intro n
  induction n with
  | zero => intro i j _ hi _ hj hn; omega
  | succ n ih =>
    intro i j hi0 hi hj0 hj hn hlo hhi
    rcases Nat.eq_zero_or_pos n with hn0 | hnpos
    · -- the last cell
      subst hn0
      have hiD : i = Dx := by omega
      have hjD : j = Dy := by omega
      subst hiD hjD
      constructor
      · by_cases he : lineErr i j i j > 0 <;> simp [losLoop, he]
      · intro p
        have hL : (losLoop (fun _ _ => false) xi yi (i * 2) (j * 2) (0 + 1) (ax + xi * i)
            (ay + yi * j) (lineErr i j i j)).2 = [⟨ax + xi * i, ay + yi * j⟩] := by
          by_cases he : lineErr i j i j > 0 <;> simp [losLoop, he]
        rw [hL, List.mem_singleton]
        constructor
        · intro hp
          exact ⟨i, j, le_refl _, le_refl _, le_refl _, le_refl _, hlo, hhi, hp⟩
        · rintro ⟨i', j', h1, h2, h3, h4, _, _, hp⟩
          have : i' = i := le_antisymm h2 h1
          have : j' = j := le_antisymm h4 h3
          subst_vars; rfl
    · by_cases he : lineErr Dx Dy i j > 0
      · -- a step in x
        have hiD : i < Dx := by
          by_contra hcon
          have hiD : i = Dx := le_antisymm hi (not_lt.mp hcon)
          have hj1 : 0 ≤ Dy - j - 1 := by omega
          have := mul_nonneg hDx hj1
          unfold lineErr at he
          subst hiD
          nlinarith
        have hx : ax + xi * i + xi = ax + xi * (i + 1) := by ring
        have hE : lineErr Dx Dy i j - Dy * 2 = lineErr Dx Dy (i + 1) j := by
          unfold lineErr; ring
        have hrec := ih (i + 1) j (by omega) (by omega) hj0 hj (by omega)
          (by rw [← hE]; linarith) (by rw [← hE]; linarith)
        have hL : (losLoop (fun _ _ => false) xi yi (Dx * 2) (Dy * 2) (n + 1) (ax + xi * i)
            (ay + yi * j) (lineErr Dx Dy i j)).2 = ⟨ax + xi * i, ay + yi * j⟩ ::
            (losLoop (fun _ _ => false) xi yi (Dx * 2) (Dy * 2) n (ax + xi * (i + 1))
              (ay + yi * j) (lineErr Dx Dy (i + 1) j)).2 := by
          simp [losLoop, he, hx, hE]
        rw [hL]
        obtain ⟨hlast, hmem⟩ := hrec
        constructor
        · rw [List.getLast?_cons, hlast]; rfl
        · intro p
          rw [List.mem_cons, hmem]
          constructor
          · rintro (hp | ⟨i', j', h1, h2, h3, h4, h5, h6, hp⟩)
            · exact ⟨i, j, le_refl _, hi, le_refl _, hj, hlo, hhi, hp⟩
            · exact ⟨i', j', by omega, h2, h3, h4, h5, h6, hp⟩
          · rintro ⟨i', j', h1, h2, h3, h4, h5, h6, hp⟩
            by_cases hii : i' = i
            · by_cases hjj : j' = j
              · left; subst hii hjj; exact hp
              · exfalso
                have hj1 : 0 ≤ j' - j - 1 := by omega
                have := mul_nonneg hDx hj1
                subst hii
                unfold lineErr at he h6
                nlinarith
            · right
              exact ⟨i', j', by omega, h2, h3, h4, h5, h6, hp⟩
      · -- a step in y
        have hjD : j < Dy := by
          by_contra hcon
          have hjD : j = Dy := le_antisymm hj (not_lt.mp hcon)
          have hi1 : 0 ≤ Dx - i - 1 := by omega
          have := mul_nonneg hDy hi1
          unfold lineErr at he
          subst hjD
          nlinarith
        have hy : ay + yi * j + yi = ay + yi * (j + 1) := by ring
        have hE : lineErr Dx Dy i j + Dx * 2 = lineErr Dx Dy i (j + 1) := by
          unfold lineErr; ring
        have hrec := ih i (j + 1) hi0 hi (by omega) (by omega) (by omega)
          (by rw [← hE]; linarith) (by rw [← hE]; linarith)
        have hL : (losLoop (fun _ _ => false) xi yi (Dx * 2) (Dy * 2) (n + 1) (ax + xi * i)
            (ay + yi * j) (lineErr Dx Dy i j)).2 = ⟨ax + xi * i, ay + yi * j⟩ ::
            (losLoop (fun _ _ => false) xi yi (Dx * 2) (Dy * 2) n (ax + xi * i)
              (ay + yi * (j + 1)) (lineErr Dx Dy i (j + 1))).2 := by
          simp [losLoop, he, hy, hE]
        rw [hL]
        obtain ⟨hlast, hmem⟩ := hrec
        constructor
        · rw [List.getLast?_cons, hlast]; rfl
        · intro p
          rw [List.mem_cons, hmem]
          constructor
          · rintro (hp | ⟨i', j', h1, h2, h3, h4, h5, h6, hp⟩)
            · exact ⟨i, j, le_refl _, hi, le_refl _, hj, hlo, hhi, hp⟩
            · exact ⟨i', j', h1, h2, by omega, h4, h5, h6, hp⟩
          · rintro ⟨i', j', h1, h2, h3, h4, h5, h6, hp⟩
            by_cases hjj : j' = j
            · by_cases hii : i' = i
              · left; subst hii hjj; exact hp
              · exfalso
                have hi1 : 0 ≤ i' - i - 1 := by omega
                have := mul_nonneg hDy hi1
                subst hjj
                unfold lineErr at he h5
                nlinarith
            · right
              exact ⟨i', j', h1, h2, by omega, h4, h5, h6, hp⟩

/-! ## The walked path -/

theorem walkedPath_self (a : Point) : walkedPath a a = [a] := by
  simp [walkedPath, losRun, losLoop]

theorem walkedPath_length (a b : Point) :
    ((walkedPath a b).length : Int) = 1 + |b.x - a.x| + |b.y - a.y| := by
  unfold walkedPath losRun
  simp only [losLoop_free_length]
  have h1 := abs_nonneg (b.x - a.x)
  have h2 := abs_nonneg (b.y - a.y)
  omega

theorem walkedPath_head (a b : Point) : (walkedPath a b).head? = some a := by
  unfold walkedPath losRun
  have h1 := abs_nonneg (b.x - a.x)
  have h2 := abs_nonneg (b.y - a.y)
  obtain ⟨n, hn⟩ : ∃ n : Nat, (1 + |b.x - a.x| + |b.y - a.y|).toNat = n + 1 :=
    ⟨(|b.x - a.x| + |b.y - a.y|).toNat, by omega⟩
  simp only [hn]
  by_cases he : |b.x - a.x| - |b.y - a.y| > 0 <;> simp [losLoop, he]

/-- The cells of the walked path from `a` to `b`, for `a ≠ b`: the path ends
in `b`, and it consists of the cells `i` steps in `x` and `j` steps in `y` away
from `a`, inside the box spanned by `a` and `b`, whose error value lies in the
band `(-2 Dy, 2 Dx]`. -/
theorem walkedPath_spec (a b : Point) (hab : a ≠ b) :
    (walkedPath a b).getLast? = some b ∧
    ∀ p, p ∈ walkedPath a b ↔
      ∃ i j : Int, 0 ≤ i ∧ i ≤ |b.x - a.x| ∧ 0 ≤ j ∧ j ≤ |b.y - a.y| ∧
        -(2 * |b.y - a.y|) < lineErr |b.x - a.x| |b.y - a.y| i j ∧
        lineErr |b.x - a.x| |b.y - a.y| i j ≤ 2 * |b.x - a.x| ∧
        p = ⟨a.x + (if b.x > a.x then 1 else -1) * i,
             a.y + (if b.y > a.y then 1 else -1) * j⟩ := by
  have h1 := abs_nonneg (b.x - a.x)
  have h2 := abs_nonneg (b.y - a.y)
  have hpos : 0 < |b.x - a.x| + |b.y - a.y| := by
    by_contra hcon
    have hx : |b.x - a.x| = 0 := by omega
    have hy : |b.y - a.y| = 0 := by omega
    rw [abs_eq_zero] at hx hy
    apply hab
    obtain ⟨ax, ay⟩ := a
    obtain ⟨bx, by_⟩ := b
    simp only at hx hy
    simp only [Point.mk.injEq]
    constructor <;> omega
  have key := losLoop_free_spec (if b.x > a.x then 1 else -1) (if b.y > a.y then 1 else -1)
    |b.x - a.x| |b.y - a.y| a.x a.y h1 h2 (1 + |b.x - a.x| + |b.y - a.y|).toNat 0 0
    (le_refl _) h1 (le_refl _) h2 (by omega)
    (by unfold lineErr; omega) (by unfold lineErr; omega)
  have e0 : lineErr |b.x - a.x| |b.y - a.y| 0 0 = |b.x - a.x| - |b.y - a.y| := by
    unfold lineErr; ring
  have ex : a.x + (if b.x > a.x then 1 else -1) * 0 = a.x := by ring
  have ey : a.y + (if b.y > a.y then 1 else -1) * 0 = a.y := by ring
  rw [e0, ex, ey] at key
  have hbx : a.x + (if b.x > a.x then 1 else -1) * |b.x - a.x| = b.x := by
    split_ifs with h
    · rw [abs_of_pos (by omega)]; ring
    · rw [abs_of_nonpos (by omega)]; ring
  have hby : a.y + (if b.y > a.y then 1 else -1) * |b.y - a.y| = b.y := by
    split_ifs with h
    · rw [abs_of_pos (by omega)]; ring
    · rw [abs_of_nonpos (by omega)]; ring
  rw [hbx, hby] at key
  exact key

theorem walkedPath_last (a b : Point) : (walkedPath a b).getLast? = some b := by
  by_cases hab : a = b
  · subst hab; simp [walkedPath_self]
  · exact (walkedPath_spec a b hab).1

theorem mem_walkedPath_left (a b : Point) : a ∈ walkedPath a b :=
  List.mem_of_mem_head? (walkedPath_head a b)

theorem mem_walkedPath_right (a b : Point) : b ∈ walkedPath a b :=
  List.mem_of_mem_getLast? (walkedPath_last a b)

theorem hasObstacleBetween_iff (env : Environment) (a b : Point) :
    hasObstacleBetween env a b = true ↔
      ∃ p ∈ walkedPath a b, isObstacle env p.x p.y = true :=
  losLoop_fst_iff _ _ _ _ _ _ _ _ _

theorem testedCells_of_clear (env : Environment) (a b : Point)
    (h : ∀ p ∈ testedCells env a b, isObstacle env p.x p.y = false) :
    testedCells env a b = walkedPath a b :=
  losLoop_snd_of_clear _ _ _ _ _ _ _ _ _ h

/-- Without a corner crossing, every cell walked from `a` to `b` is also walked
from `b` to `a`. -/
theorem mem_walkedPath_swap (a b : Point)
    (h : ∀ i j : Int, 0 ≤ i → i < |b.x - a.x| → 0 ≤ j → j < |b.y - a.y| →
      |b.x - a.x| * (2 * j + 1) ≠ |b.y - a.y| * (2 * i + 1))
    (p : Point) (hp : p ∈ walkedPath a b) : p ∈ walkedPath b a := by
  by_cases hab : a = b
  · subst hab; exact hp
  · have hba : b ≠ a := fun e => hab e.symm
    rw [(walkedPath_spec a b hab).2] at hp
    rw [(walkedPath_spec b a hba).2]
    obtain ⟨i, j, hi0, hi, hj0, hj, hlo, hhi, rfl⟩ := hp
    have hsx : |a.x - b.x| = |b.x - a.x| := abs_sub_comm _ _
    have hsy : |a.y - b.y| = |b.y - a.y| := abs_sub_comm _ _
    rw [hsx, hsy]
    have hDx := abs_nonneg (b.x - a.x)
    have hDy := abs_nonneg (b.y - a.y)
    have hpos : 0 < |b.x - a.x| + |b.y - a.y| := by
      by_contra hcon
      have hx : |b.x - a.x| = 0 := by omega
      have hy : |b.y - a.y| = 0 := by omega
      rw [abs_eq_zero] at hx hy
      apply hab
      obtain ⟨ax, ay⟩ := a
      obtain ⟨bx, by_⟩ := b
      simp only at hx hy
      simp only [Point.mk.injEq]
      constructor <;> omega
    -- the error value never sits on the upper edge of the band
    have hne : lineErr |b.x - a.x| |b.y - a.y| i j ≠ 2 * |b.x - a.x| := by
      intro he
      unfold lineErr at he
      generalize |b.x - a.x| = Dx at *
      generalize |b.y - a.y| = Dy at *
      have hj1 : 1 ≤ j := by
        by_contra hc
        have hj00 : j = 0 := by omega
        subst hj00
        have := mul_nonneg hDy hi0
        nlinarith
      have hiD : i < Dx := by
        by_contra hc
        have hiD : i = Dx := by omega
        subst hiD
        have := mul_nonneg hi0 (by omega : 0 ≤ Dy - j)
        nlinarith
      exact h i (j - 1) hi0 hiD (by omega) (by omega) (by nlinarith)
    refine ⟨|b.x - a.x| - i, |b.y - a.y| - j, by omega, by omega, by omega, by omega, ?_, ?_, ?_⟩
    · have hlt := lt_of_le_of_ne hhi hne
      unfold lineErr at hlt ⊢
      nlinarith
    · unfold lineErr at hlo ⊢
      nlinarith
    · have hx : a.x + (if b.x > a.x then 1 else -1) * i =
          b.x + (if a.x > b.x then 1 else -1) * (|b.x - a.x| - i) := by
        rcases lt_trichotomy a.x b.x with hlt | heq | hgt
        · rw [if_pos hlt, if_neg (by omega), abs_of_pos (by omega)]; ring
        · have hz : |b.x - a.x| = 0 := by rw [heq]; simp
          have hi0' : i = 0 := by omega
          rw [hz, hi0']; simp [heq]
        · rw [if_neg (by omega), if_pos hgt, abs_of_neg (by omega)]; ring
      have hy : a.y + (if b.y > a.y then 1 else -1) * j =
          b.y + (if a.y > b.y then 1 else -1) * (|b.y - a.y| - j) := by
        rcases lt_trichotomy a.y b.y with hlt | heq | hgt
        · rw [if_pos hlt, if_neg (by omega), abs_of_pos (by omega)]; ring
        · have hz : |b.y - a.y| = 0 := by rw [heq]; simp
          have hj0' : j = 0 := by omega
          rw [hz, hj0']; simp [heq]
        · rw [if_neg (by omega), if_pos hgt, abs_of_neg (by omega)]; ring
      rw [hx, hy]

/-! ## Reading and writing grid cells -/

theorem readCell_writeCell {α : Type} (g : List (List α)) (x y x' y' : Nat) (v : α) :
    readCell (writeCell g x y v) x' y' =
      if x' = x ∧ y' = y then (readCell g x' y').map (fun _ => v) else readCell g x' y' := by
  unfold readCell writeCell
  simp only [List.getD_eq_getElem?_getD, List.getElem?_set]
  by_cases hy : y = y'
  · subst hy
    by_cases hlen : y < g.length
    · simp only [hlen, if_true, Option.getD_some, List.getElem?_set]
      by_cases hx : x = x'
      · subst hx
        by_cases hxl : x < (g[y]?.getD []).length
        · simp [hxl, List.getElem?_eq_getElem hxl]
        · simp [hxl, List.getElem?_eq_none (not_lt.mp hxl)]
      · have hx' : ¬ x' = x := fun e => hx e.symm
        simp [hx, hx']
    · simp [hlen, List.getElem?_eq_none (not_lt.mp hlen)]
  · have hy' : ¬ y' = y := fun e => hy e.symm
    simp [hy, hy']

theorem map_length_writeCell {α : Type} (g : List (List α)) (x y : Nat) (v : α) :
    (writeCell g x y v).map List.length = g.map List.length := by
  unfold writeCell
  apply List.ext_getElem?
  intro n
  simp only [List.getElem?_map, List.getElem?_set, List.getD_eq_getElem?_getD]
  by_cases hy : y = n
  · subst hy
    by_cases hlen : y < g.length
    · simp [hlen, List.getElem?_eq_getElem hlen]
    · simp [hlen, List.getElem?_eq_none (not_lt.mp hlen)]
  · simp [hy]

theorem gridDims_iff_map_length {α : Type} (g : List (List α)) (w h : Nat) :
    GridDims g w h ↔ g.map List.length = List.replicate h w := by
  unfold GridDims
  constructor
  · rintro ⟨hl, hr⟩
    rw [List.eq_replicate_iff]
    refine ⟨by simp [hl], ?_⟩
    intro n hn
    obtain ⟨row, hrow, rfl⟩ := List.mem_map.mp hn
    exact hr row hrow
  · intro hm
    rw [List.eq_replicate_iff] at hm
    refine ⟨by simpa using hm.1, ?_⟩
    intro row hrow
    exact hm.2 _ (List.mem_map.mpr ⟨row, hrow, rfl⟩)

theorem gridDims_writeCell {α : Type} (g : List (List α)) (w h x y : Nat) (v : α)
    (hg : GridDims g w h) : GridDims (writeCell g x y v) w h := by
  rw [gridDims_iff_map_length] at hg ⊢
  rw [map_length_writeCell, hg]

theorem readCell_isSome_of_gridDims {α : Type} (g : List (List α)) (w h x y : Nat)
    (hg : GridDims g w h) (hx : x < w) (hy : y < h) : ∃ v, readCell g x y = some v := by
  obtain ⟨hl, hr⟩ := hg
  have hyl : y < g.length := by omega
  have hrow : (g.getD y []) = g[y] := List.getD_eq_getElem g [] hyl
  have hxl : x < (g.getD y []).length := by
    rw [hrow, hr _ (List.getElem_mem hyl)]; exact hx
  exact ⟨(g.getD y [])[x], by unfold readCell; exact List.getElem?_eq_getElem hxl⟩

/-- Two grids with the same row lengths that agree in every cell are equal. -/
theorem grid_ext {α : Type} (g₁ g₂ : List (List α))
    (hshape : g₁.map List.length = g₂.map List.length)
    (hcell : ∀ x y, readCell g₁ x y = readCell g₂ x y) : g₁ = g₂ := by
  apply List.ext_getElem?
  intro y
  have hsy : (g₁.map List.length)[y]? = (g₂.map List.length)[y]? := by rw [hshape]
  simp only [List.getElem?_map] at hsy
  cases h1 : g₁[y]? with
  | none =>
    cases h2 : g₂[y]? with
    | none => rfl
    | some r2 => simp [h1, h2] at hsy
  | some r1 =>
    cases h2 : g₂[y]? with
    | none => simp [h1, h2] at hsy
    | some r2 =>
      congr 1
      apply List.ext_getElem?
      intro x
      have := hcell x y
      unfold readCell at this
      simpa [List.getD_eq_getElem?_getD, h1, h2] using this

/-! ## The loops of `simulate` act on the signal grid alone -/

theorem simulateCell_withSignal (env : Environment) (g : List (List Dbl)) (x y : Nat) :
    simulateCell { env with signalStrength := g } x y =
      { env with signalStrength := cellStep env x y g } := by
  have h1 : isObstacle { env with signalStrength := g } x y = isObstacle env x y := rfl
  have h2 : totalSignal { env with signalStrength := g } ⟨x, y⟩ = totalSignal env ⟨x, y⟩ := rfl
  unfold simulateCell cellStep
  simp only [h1, h2]
  split_ifs <;> rfl

theorem foldl_simulateCell (env : Environment) (y : Nat) (xs : List Nat)
    (g : List (List Dbl)) :
    xs.foldl (fun e x => simulateCell e x y) { env with signalStrength := g } =
      { env with signalStrength := xs.foldl (fun g x => cellStep env x y g) g } := by
  induction xs generalizing g with
  | nil => rfl
  | cons x xs ih =>
    simp only [List.foldl_cons]
    rw [simulateCell_withSignal, ih]

theorem simulateRow_withSignal (env : Environment) (g : List (List Dbl)) (y : Nat) :
    simulateRow { env with signalStrength := g } y =
      { env with signalStrength :=
          (List.range env.width.toNat).foldl (fun g x => cellStep env x y g) g } := by
  unfold simulateRow
  exact foldl_simulateCell env y _ g

theorem foldl_simulateRow (env : Environment) (ys : List Nat) (g : List (List Dbl)) :
    ys.foldl simulateRow { env with signalStrength := g } =
      { env with signalStrength :=
          ys.foldl (fun g y =>
            (List.range env.width.toNat).foldl (fun g x => cellStep env x y g) g) g } := by
  induction ys generalizing g with
  | nil => rfl
  | cons y ys ih =>
    simp only [List.foldl_cons]
    rw [simulateRow_withSignal, ih]

theorem simulate_eq (env : Environment) :
    simulate env =
      { env with signalStrength :=
          ((List.range env.height.toNat).foldl (fun g y =>
            (List.range env.width.toNat).foldl (fun g x => cellStep env x y g) g)
            env.signalStrength) } := by
  unfold simulate
  exact foldl_simulateRow env _ env.signalStrength

/-! ## The signal grid after `simulate`, cell by cell -/

theorem readCell_cellStep (env : Environment) (x y x' y' : Nat) (g : List (List Dbl)) :
    readCell (cellStep env x y g) x' y' =
      if x' = x ∧ y' = y then (readCell g x' y').map (simValue env x y)
      else readCell g x' y' := by
  unfold cellStep simValue
  by_cases ho : isObstacle env x y = true
  · simp only [ho, if_true]
    split_ifs
    · cases readCell g x' y' <;> rfl
    · rfl
  · by_cases ht : (totalSignal env ⟨x, y⟩).gtZero
    · simp only [ho, ht, if_true, if_false, Bool.false_eq_true, readCell_writeCell]
    · simp only [ho, ht, if_false, Bool.false_eq_true]
      split_ifs
      · cases readCell g x' y' <;> rfl
      · rfl

theorem map_length_cellStep (env : Environment) (x y : Nat) (g : List (List Dbl)) :
    (cellStep env x y g).map List.length = g.map List.length := by
  unfold cellStep
  split_ifs
  · rfl
  · exact map_length_writeCell _ _ _ _
  · rfl

theorem readCell_rowFold (env : Environment) (y : Nat) (n : Nat) (g : List (List Dbl))
    (x' y' : Nat) :
    readCell ((List.range n).foldl (fun g x => cellStep env x y g) g) x' y' =
      if x' < n ∧ y' = y then (readCell g x' y').map (simValue env x' y')
      else readCell g x' y' := by
  induction n with
  | zero => simp
  | succ n ih =>
    rw [List.range_succ, List.foldl_append, List.foldl_cons, List.foldl_nil,
      readCell_cellStep, ih]
    by_cases hy : y' = y
    · subst hy
      by_cases hx : x' = n
      · subst hx; simp
      · by_cases hlt : x' < n
        · have : x' < n + 1 := by omega
          simp [hx, hlt, this]
        · have : ¬ x' < n + 1 := by omega
          simp [hx, hlt, this]
    · simp [hy]

theorem map_length_rowFold (env : Environment) (y : Nat) (n : Nat) (g : List (List Dbl)) :
    ((List.range n).foldl (fun g x => cellStep env x y g) g).map List.length =
      g.map List.length := by
  induction n with
  | zero => simp
  | succ n ih =>
    rw [List.range_succ, List.foldl_append, List.foldl_cons, List.foldl_nil,
      map_length_cellStep, ih]

theorem readCell_gridFold (env : Environment) (w : Nat) (n : Nat) (g : List (List Dbl))
    (x' y' : Nat) :
    readCell ((List.range n).foldl (fun g y =>
        (List.range w).foldl (fun g x => cellStep env x y g) g) g) x' y' =
      if x' < w ∧ y' < n then (readCell g x' y').map (simValue env x' y')
      else readCell g x' y' := by
  induction n with
  | zero => simp
  | succ n ih =>
    rw [List.range_succ, List.foldl_append, List.foldl_cons, List.foldl_nil,
      readCell_rowFold, ih]
    by_cases hx : x' < w
    · by_cases hy : y' = n
      · subst hy; simp [hx]
      · by_cases hlt : y' < n
        · have : y' < n + 1 := by omega
          simp [hx, hy, hlt, this]
        · have : ¬ y' < n + 1 := by omega
          simp [hx, hy, hlt, this]
    · simp [hx]

theorem map_length_gridFold (env : Environment) (w : Nat) (n : Nat) (g : List (List Dbl)) :
    ((List.range n).foldl (fun g y =>
        (List.range w).foldl (fun g x => cellStep env x y g) g) g).map List.length =
      g.map List.length := by
  induction n with
  | zero => simp
  | succ n ih =>
    rw [List.range_succ, List.foldl_append, List.foldl_cons, List.foldl_nil,
      map_length_rowFold, ih]

/-- The members `simulate` does not write. -/
theorem simulate_frame (env : Environment) :
    (simulate env).width = env.width ∧ (simulate env).height = env.height ∧
    (simulate env).obstacles = env.obstacles ∧
    (simulate env).accessPoints = env.accessPoints := by
  rw [simulate_eq]
  exact ⟨rfl, rfl, rfl, rfl⟩

/-- The signal grid after `simulate`, cell by cell. -/
theorem readCell_simulate (env : Environment) (x y : Nat) :
    readCell (simulate env).signalStrength x y =
      if x < env.width.toNat ∧ y < env.height.toNat then
        (readCell env.signalStrength x y).map (simValue env x y)
      else readCell env.signalStrength x y := by
  rw [simulate_eq]
  exact readCell_gridFold env _ _ _ x y

theorem map_length_simulate (env : Environment) :
    (simulate env).signalStrength.map List.length = env.signalStrength.map List.length := by
  rw [simulate_eq]
  exact map_length_gridFold env _ _ _

/-! ## The propagation model over real arithmetic -/

theorem isValid_iff (env : Environment) (x y : Int) :
    isValid env x y = true ↔ 0 ≤ x ∧ x < env.width ∧ 0 ≤ y ∧ y < env.height := by
  unfold isValid
  simp only [Bool.and_eq_true, decide_eq_true_eq, ge_iff_le]
  tauto

theorem calculateSignalStrength_far (env : Environment) (receiver : Point) (ap : AccessPoint)
    (d : ℝ)
    (hd : Dbl.hypot (ap.location.x - receiver.x) (ap.location.y - receiver.y) = Dbl.num d)
    (hne : d ≠ 0) :
    calculateSignalStrength env receiver ap =
      if hasObstacleBetween env ap.location receiver then
        Dbl.sub (Dbl.sub ap.txPower (Dbl.num (10 * 4 * Real.logb 10 d))) (Dbl.num 25)
      else Dbl.sub ap.txPower (Dbl.num (10 * 4 * Real.logb 10 d)) := by
  have hnn : 0 ≤ d := by
    unfold Dbl.hypot at hd
    injection hd with hd
    rw [← hd]
    exact Real.sqrt_nonneg _
  have hpos : 0 < d := lt_of_le_of_ne hnn (Ne.symm hne)
  unfold calculateSignalStrength
  simp only [hd, Dbl.eqZero, hne, if_false, Dbl.log10, hpos, if_true, Dbl.mul,
    PATH_LOSS_EXPONENT, OBSTACLE_ATTENUATION]

theorem calculateSignalStrength_num (env : Environment) (receiver : Point) (ap : AccessPoint)
    (p : ℝ) (hp : ap.txPower = Dbl.num p) :
    ∃ s, calculateSignalStrength env receiver ap = Dbl.num s := by
  by_cases hz : Real.sqrt (((ap.location.x - receiver.x : Int) : ℝ) ^ 2 +
      ((ap.location.y - receiver.y : Int) : ℝ) ^ 2) = 0
  · refine ⟨p, ?_⟩
    unfold calculateSignalStrength Dbl.hypot
    simp only [Dbl.eqZero, hz, if_true, hp]
  · rw [calculateSignalStrength_far env receiver ap _ rfl hz, hp]
    split_ifs
    · exact ⟨_, rfl⟩
    · exact ⟨_, rfl⟩

theorem foldl_totalSignal (env : Environment) (receiver : Point) (aps : List AccessPoint)
    (acc : ℝ) (h : ∀ ap ∈ aps, ∃ s, calculateSignalStrength env receiver ap = Dbl.num s) :
    aps.foldl
        (fun total ap =>
          Dbl.add total
            (Dbl.pow (Dbl.num 10)
              (Dbl.div (calculateSignalStrength env receiver ap) (Dbl.num 10))))
        (Dbl.num acc) =
      Dbl.num (acc + (aps.map (fun ap =>
        (10 : ℝ) ^ ((calculateSignalStrength env receiver ap).toReal / 10))).sum) := by
  induction aps generalizing acc with
  | nil => simp
  | cons ap aps ih =>
    obtain ⟨s, hs⟩ := h ap (List.mem_cons_self _ _)
    have hstep : Dbl.add (Dbl.num acc)
        (Dbl.pow (Dbl.num 10) (Dbl.div (calculateSignalStrength env receiver ap) (Dbl.num 10))) =
        Dbl.num (acc + (10 : ℝ) ^ (s / 10)) := by
      rw [hs]
      simp [Dbl.add, Dbl.pow, Dbl.div]
    simp only [List.foldl_cons, hstep, List.map_cons, List.sum_cons]
    rw [ih _ (fun ap' hap' => h ap' (List.mem_cons_of_mem _ hap')), hs]
    simp only [Dbl.toReal]
    congr 1
    ring

theorem totalSignal_num (env : Environment) (receiver : Point)
    (h : ∀ ap ∈ env.accessPoints, ∃ p, ap.txPower = Dbl.num p) :
    totalSignal env receiver =
      Dbl.num ((env.accessPoints.map (fun ap =>
        (10 : ℝ) ^ ((calculateSignalStrength env receiver ap).toReal / 10))).sum) := by
  unfold totalSignal
  rw [foldl_totalSignal env receiver env.accessPoints 0
    (fun ap hap => by
      obtain ⟨p, hp⟩ := h ap hap
      exact calculateSignalStrength_num env receiver ap p hp)]
  simp

theorem simValue_idem (env : Environment) (x y : Nat) (old : Dbl) :
    simValue env x y (simValue env x y old) = simValue env x y old := by
  unfold simValue
  split_ifs <;> rfl

theorem foldl_const {α β : Type} (xs : List β) (a : α) :
    xs.foldl (fun a _ => a) a = a := by
  induction xs with
  | nil => rfl
  | cons x xs ih => simp

/-! ## Set-up calls leave the signal grid alone -/

theorem addObstacle_frame (env : Environment) (x y : Int) :
    (addObstacle env x y).signalStrength = env.signalStrength ∧
    (addObstacle env x y).accessPoints = env.accessPoints ∧
    (addObstacle env x y).width = env.width ∧
    (addObstacle env x y).height = env.height := by
  unfold addObstacle
  split_ifs <;> exact ⟨rfl, rfl, rfl, rfl⟩

theorem addAccessPoint_frame (env : Environment) (x y : Int) (p : Dbl) :
    (addAccessPoint env x y p).signalStrength = env.signalStrength ∧
    (addAccessPoint env x y p).obstacles = env.obstacles ∧
    (addAccessPoint env x y p).width = env.width ∧
    (addAccessPoint env x y p).height = env.height := by
  unfold addAccessPoint
  split_ifs <;> exact ⟨rfl, rfl, rfl, rfl⟩

theorem runCalls_setup_frame (env : Environment) (calls : List Call)
    (h : Call.simulate ∉ calls) :
    (runCalls env calls).signalStrength = env.signalStrength ∧
    (runCalls env calls).width = env.width ∧
    (runCalls env calls).height = env.height := by
  induction calls generalizing env with
  | nil => exact ⟨rfl, rfl, rfl⟩
  | cons c cs ih =>
    have hcs : Call.simulate ∉ cs := fun hm => h (List.mem_cons_of_mem _ hm)
    have hc : c ≠ Call.simulate := fun e => h (e ▸ List.mem_cons_self _ _)
    obtain ⟨h1, h2, h3⟩ := ih (Call.run env c) hcs
    have hstep : (Call.run env c).signalStrength = env.signalStrength ∧
        (Call.run env c).width = env.width ∧ (Call.run env c).height = env.height := by
      cases c with
      | addObstacle x y =>
        obtain ⟨a, _, b, c⟩ := addObstacle_frame env x y
        exact ⟨a, b, c⟩
      | addAccessPoint x y p =>
        obtain ⟨a, _, b, c⟩ := addAccessPoint_frame env x y p
        exact ⟨a, b, c⟩
      | simulate => exact absurd rfl hc
    show (runCalls (Call.run env c) cs).signalStrength = env.signalStrength ∧
      (runCalls (Call.run env c) cs).width = env.width ∧
      (runCalls (Call.run env c) cs).height = env.height
    rw [h1, h2, h3]
    exact hstep

theorem readCell_new_signal (w h : Int) (x y : Nat) (hx : (x : Int) < w) (hy : (y : Int) < h) :
    readCell (Environment.new w h).signalStrength x y = some (Dbl.num 0) := by
  unfold readCell Environment.new
  have hx' : x < w.toNat := by omega
  have hy' : y < h.toNat := by omega
  simp [List.getD_eq_getElem?_getD, List.getElem?_replicate, hx', hy']

/-! ## Claims about the visibility tester -/

theorem isObstacle_iff (env : Environment) (x y : Int) :
    isObstacle env x y = true ↔
      isValid env x y = true ∧ readCell env.obstacles x.toNat y.toNat = some true := by
  unfold isObstacle readCell
  rw [Bool.and_eq_true, List.getD_eq_getElem?_getD]
  cases (env.obstacles.getD y.toNat [])[x.toNat]? <;> simp

/-- Claim C1, as stated, fails.  In the 2x2 environment whose only obstacle is
the cell `(0, 1)`, the test from `(0, 0)` to `(1, 1)` reports an obstruction
and the test from `(1, 1)` to `(0, 0)` reports none: the line crosses the
corner shared by the four cells, where `error` is `0` and the walk steps in `y`
first, so the two directions pass on different sides of the corner. -/
theorem hasObstacleBetween_not_symmetric :
    hasObstacleBetween (addObstacle (Environment.new 2 2) 0 1) ⟨0, 0⟩ ⟨1, 1⟩ = true ∧
    hasObstacleBetween (addObstacle (Environment.new 2 2) 0 1) ⟨1, 1⟩ ⟨0, 0⟩ = false := by
  decide

/-- Claim C1, amended.  For every obstacle mask and all points `a`, `b` whose
connecting line crosses no cell corner (no step counts `i < |dx|`, `j < |dy|`
with `|dx| * (2 j + 1) = |dy| * (2 i + 1)`; vacuously so when `a` and `b` share
a row or a column), `hasObstacleBetween a b` and `hasObstacleBetween b a`
return the same boolean. -/
theorem hasObstacleBetween_symm_of_no_corner (env : Environment) (a b : Point)
    (h : ∀ i j : Int, 0 ≤ i → i < |b.x - a.x| → 0 ≤ j → j < |b.y - a.y| →
      |b.x - a.x| * (2 * j + 1) ≠ |b.y - a.y| * (2 * i + 1)) :
    hasObstacleBetween env a b = hasObstacleBetween env b a := by
  have h' : ∀ i j : Int, 0 ≤ i → i < |a.x - b.x| → 0 ≤ j → j < |a.y - b.y| →
      |a.x - b.x| * (2 * j + 1) ≠ |a.y - b.y| * (2 * i + 1) := by
    rw [abs_sub_comm a.x b.x, abs_sub_comm a.y b.y]
    exact h
  rw [Bool.eq_iff_iff, hasObstacleBetween_iff, hasObstacleBetween_iff]
  constructor
  · rintro ⟨p, hp, ho⟩
    exact ⟨p, mem_walkedPath_swap a b h p hp, ho⟩
  · rintro ⟨p, hp, ho⟩
    exact ⟨p, mem_walkedPath_swap b a h' p hp, ho⟩

/-- Witness of C1, amended: the points `(0, 0)` and `(2, 1)`, whose line crosses
no corner, in a 3x2 environment with an obstacle at `(1, 0)`. -/
theorem hasObstacleBetween_symm_of_no_corner_witness :
    (∀ i j : Int, 0 ≤ i → i < |(2 : Int) - 0| → 0 ≤ j → j < |(1 : Int) - 0| →
      |(2 : Int) - 0| * (2 * j + 1) ≠ |(1 : Int) - 0| * (2 * i + 1)) ∧
    hasObstacleBetween (addObstacle (Environment.new 3 2) 1 0) ⟨0, 0⟩ ⟨2, 1⟩ =
      hasObstacleBetween (addObstacle (Environment.new 3 2) 1 0) ⟨2, 1⟩ ⟨0, 0⟩ :=
  ⟨by intro i j _ _ _ _; norm_num; omega,
   hasObstacleBetween_symm_of_no_corner (addObstacle (Environment.new 3 2) 1 0) ⟨0, 0⟩ ⟨2, 1⟩
     (by intro i j _ _ _ _; norm_num; omega)⟩

/-- Claim C2.  When none of the cells that `hasObstacleBetween a b` tests is an
obstacle, the loop tests exactly `1 + |b.x - a.x| + |b.y - a.y|` cells, the
first of them is `a` and the last is `b` (`int` arithmetic without overflow). -/
theorem testedCells_of_unobstructed (env : Environment) (a b : Point)
    (h : ∀ p ∈ testedCells env a b, isObstacle env p.x p.y = false) :
    ((testedCells env a b).length : Int) = 1 + |b.x - a.x| + |b.y - a.y| ∧
    (testedCells env a b).head? = some a ∧
    (testedCells env a b).getLast? = some b := by
  rw [testedCells_of_clear env a b h]
  exact ⟨walkedPath_length a b, walkedPath_head a b, walkedPath_last a b⟩

/-- Witness of C2: from `(0, 0)` to `(2, 1)` in a 3x3 environment whose only
obstacle, at `(0, 2)`, is off the path. -/
theorem testedCells_of_unobstructed_witness :
    (∀ p ∈ testedCells (addObstacle (Environment.new 3 3) 0 2) ⟨0, 0⟩ ⟨2, 1⟩,
      isObstacle (addObstacle (Environment.new 3 3) 0 2) p.x p.y = false) ∧
    ((testedCells (addObstacle (Environment.new 3 3) 0 2) ⟨0, 0⟩ ⟨2, 1⟩).length : Int) =
      1 + |(⟨2, 1⟩ : Point).x - (⟨0, 0⟩ : Point).x| +
        |(⟨2, 1⟩ : Point).y - (⟨0, 0⟩ : Point).y| ∧
    (testedCells (addObstacle (Environment.new 3 3) 0 2) ⟨0, 0⟩ ⟨2, 1⟩).head? = some ⟨0, 0⟩ ∧
    (testedCells (addObstacle (Environment.new 3 3) 0 2) ⟨0, 0⟩ ⟨2, 1⟩).getLast? =
      some ⟨2, 1⟩ :=
  ⟨by decide,
   testedCells_of_unobstructed (addObstacle (Environment.new 3 3) 0 2) ⟨0, 0⟩ ⟨2, 1⟩
     (by decide)⟩

/-- Claim C3.  The walked path from `a` to `b` (the cells the loop tests on a
grid without obstacles) has `1 + |dx| + |dy|` cells, and `hasObstacleBetween a b`
returns true exactly when one of them is an in-bounds cell marked as obstacle;
in particular it returns true when `a` itself or `b` itself is an obstacle
cell. -/
theorem hasObstacleBetween_iff_obstacle_on_walkedPath (env : Environment) (a b : Point) :
    (∀ free : Environment, (∀ x y, isObstacle free x y = false) →
      testedCells free a b = walkedPath a b) ∧
    ((walkedPath a b).length : Int) = 1 + |b.x - a.x| + |b.y - a.y| ∧
    (hasObstacleBetween env a b = true ↔
      ∃ p ∈ walkedPath a b,
        isValid env p.x p.y = true ∧
          readCell env.obstacles p.x.toNat p.y.toNat = some true) ∧
    (isObstacle env a.x a.y = true → hasObstacleBetween env a b = true) ∧
    (isObstacle env b.x b.y = true → hasObstacleBetween env a b = true) := by
  refine ⟨fun free hfree => testedCells_of_clear free a b (fun p _ => hfree p.x p.y),
    walkedPath_length a b, ?_, ?_, ?_⟩
  · rw [hasObstacleBetween_iff]
    constructor
    · rintro ⟨p, hp, ho⟩
      exact ⟨p, hp, (isObstacle_iff env p.x p.y).mp ho⟩
    · rintro ⟨p, hp, ho⟩
      exact ⟨p, hp, (isObstacle_iff env p.x p.y).mpr ho⟩
  · intro ha
    exact (hasObstacleBetween_iff env a b).mpr ⟨a, mem_walkedPath_left a b, ha⟩
  · intro hb
    exact (hasObstacleBetween_iff env a b).mpr ⟨b, mem_walkedPath_right a b, hb⟩

/-! ## Claims about the grid model -/

/-- Claim C4.  For in-bounds `(x, y)`, `addObstacle` marks the cell `(x, y)` as
obstacle and leaves every other cell of the mask, the signal grid, the
transmitters and the dimensions as they were; for any other `(x, y)` it returns
the environment unchanged.  It is a total function: no error is raised. -/
theorem addObstacle_spec (env : Environment) (hwf : env.WF) (x y : Int) :
    (0 ≤ x ∧ x < env.width ∧ 0 ≤ y ∧ y < env.height →
      isObstacle (addObstacle env x y) x y = true ∧
      readCell (addObstacle env x y).obstacles x.toNat y.toNat = some true ∧
      (∀ x' y' : Nat, ¬ (x' = x.toNat ∧ y' = y.toNat) →
        readCell (addObstacle env x y).obstacles x' y' = readCell env.obstacles x' y') ∧
      (addObstacle env x y).signalStrength = env.signalStrength ∧
      (addObstacle env x y).accessPoints = env.accessPoints ∧
      (addObstacle env x y).width = env.width ∧
      (addObstacle env x y).height = env.height) ∧
    (¬ (0 ≤ x ∧ x < env.width ∧ 0 ≤ y ∧ y < env.height) → addObstacle env x y = env) := by
  constructor
  · intro hin
    have hv : isValid env x y = true := (isValid_iff env x y).mpr hin
    obtain ⟨_, _, hobs, _⟩ := hwf
    obtain ⟨v, hvold⟩ := readCell_isSome_of_gridDims env.obstacles env.width.toNat
      env.height.toNat x.toNat y.toNat hobs (by omega) (by omega)
    have hread : readCell (addObstacle env x y).obstacles x.toNat y.toNat = some true := by
      simp only [addObstacle, hv, if_true, readCell_writeCell, and_self, hvold, Option.map_some']
    refine ⟨?_, hread, ?_, ?_, ?_, ?_, ?_⟩
    · rw [isObstacle_iff]
      refine ⟨?_, hread⟩
      rw [isValid_iff]
      simp only [addObstacle, hv, if_true]
      exact hin
    · intro x' y' hne
      simp only [addObstacle, hv, if_true, readCell_writeCell, hne, if_false]
    · simp only [addObstacle, hv, if_true]
    · simp only [addObstacle, hv, if_true]
    · simp only [addObstacle, hv, if_true]
    · simp only [addObstacle, hv, if_true]
  · intro hout
    have hv : ¬ isValid env x y = true := fun h => hout ((isValid_iff env x y).mp h)
    simp only [addObstacle, hv, if_false, Bool.false_eq_true]

/-- Witness of C4: a 3x2 environment with one transmitter. -/
theorem addObstacle_spec_witness :
    (addAccessPoint (Environment.new 3 2) 0 0 (Dbl.num 95)).WF ∧
    ((0 ≤ (2 : Int) ∧ (2 : Int) < (addAccessPoint (Environment.new 3 2) 0 0 (Dbl.num 95)).width ∧
        0 ≤ (1 : Int) ∧ (1 : Int) < (addAccessPoint (Environment.new 3 2) 0 0 (Dbl.num 95)).height →
      isObstacle (addObstacle (addAccessPoint (Environment.new 3 2) 0 0 (Dbl.num 95)) 2 1) 2 1
        = true ∧
      readCell (addObstacle (addAccessPoint (Environment.new 3 2) 0 0 (Dbl.num 95)) 2 1).obstacles
        (2 : Int).toNat (1 : Int).toNat = some true ∧
      (∀ x' y' : Nat, ¬ (x' = (2 : Int).toNat ∧ y' = (1 : Int).toNat) →
        readCell
          (addObstacle (addAccessPoint (Environment.new 3 2) 0 0 (Dbl.num 95)) 2 1).obstacles
          x' y' =
        readCell (addAccessPoint (Environment.new 3 2) 0 0 (Dbl.num 95)).obstacles x' y') ∧
      (addObstacle (addAccessPoint (Environment.new 3 2) 0 0 (Dbl.num 95)) 2 1).signalStrength =
        (addAccessPoint (Environment.new 3 2) 0 0 (Dbl.num 95)).signalStrength ∧
      (addObstacle (addAccessPoint (Environment.new 3 2) 0 0 (Dbl.num 95)) 2 1).accessPoints =
        (addAccessPoint (Environment.new 3 2) 0 0 (Dbl.num 95)).accessPoints ∧
      (addObstacle (addAccessPoint (Environment.new 3 2) 0 0 (Dbl.num 95)) 2 1).width =
        (addAccessPoint (Environment.new 3 2) 0 0 (Dbl.num 95)).width ∧
      (addObstacle (addAccessPoint (Environment.new 3 2) 0 0 (Dbl.num 95)) 2 1).height =
        (addAccessPoint (Environment.new 3 2) 0 0 (Dbl.num 95)).height) ∧
    (¬ (0 ≤ (2 : Int) ∧ (2 : Int) < (addAccessPoint (Environment.new 3 2) 0 0 (Dbl.num 95)).width ∧
        0 ≤ (1 : Int) ∧ (1 : Int) < (addAccessPoint (Environment.new 3 2) 0 0 (Dbl.num 95)).height) →
      addObstacle (addAccessPoint (Environment.new 3 2) 0 0 (Dbl.num 95)) 2 1 =
        addAccessPoint (Environment.new 3 2) 0 0 (Dbl.num 95))) :=
  ⟨by decide,
   addObstacle_spec (addAccessPoint (Environment.new 3 2) 0 0 (Dbl.num 95)) (by decide) 2 1⟩

/-- Claim C5.  For in-bounds `(x, y)`, `addAccessPoint` appends the transmitter
`((x, y), p)` at the end of the collection and leaves the obstacle mask, the
signal grid and the dimensions as they were; for any other `(x, y)` it returns
the environment unchanged.  It is a total function: no error is raised. -/
theorem addAccessPoint_spec (env : Environment) (x y : Int) (p : Dbl) :
    (0 ≤ x ∧ x < env.width ∧ 0 ≤ y ∧ y < env.height →
      (addAccessPoint env x y p).accessPoints = env.accessPoints ++ [⟨⟨x, y⟩, p⟩] ∧
      (addAccessPoint env x y p).obstacles = env.obstacles ∧
      (addAccessPoint env x y p).signalStrength = env.signalStrength ∧
      (addAccessPoint env x y p).width = env.width ∧
      (addAccessPoint env x y p).height = env.height) ∧
    (¬ (0 ≤ x ∧ x < env.width ∧ 0 ≤ y ∧ y < env.height) → addAccessPoint env x y p = env) := by
  constructor
  · intro hin
    have hv : isValid env x y = true := (isValid_iff env x y).mpr hin
    simp only [addAccessPoint, hv, if_true, and_self]
  · intro hout
    have hv : ¬ isValid env x y = true := fun h => hout ((isValid_iff env x y).mp h)
    simp only [addAccessPoint, hv, if_false, Bool.false_eq_true]

/-! ## Claims about the propagation model and the aggregator -/

/-- Claim C6.  For a receiver at non-zero Euclidean distance `d` from the
transmitter, `calculateSignalStrength` is `txPower - 10 * 4 * log10 d`, minus
`25` once when `hasObstacleBetween` reports an obstruction and minus nothing
otherwise; hence any two environments that both obstruct the path give the same
value, however many obstacle cells lie on it. -/
theorem calculateSignalStrength_single_penalty (env : Environment) (receiver : Point)
    (ap : AccessPoint) (d : ℝ)
    (hd : Dbl.hypot (ap.location.x - receiver.x) (ap.location.y - receiver.y) = Dbl.num d)
    (hne : d ≠ 0) :
    (hasObstacleBetween env ap.location receiver = true →
      calculateSignalStrength env receiver ap =
        Dbl.sub (Dbl.sub ap.txPower (Dbl.num (10 * 4 * Real.logb 10 d))) (Dbl.num 25)) ∧
    (hasObstacleBetween env ap.location receiver = false →
      calculateSignalStrength env receiver ap =
        Dbl.sub ap.txPower (Dbl.num (10 * 4 * Real.logb 10 d))) ∧
    (∀ env' : Environment,
      hasObstacleBetween env ap.location receiver = true →
      hasObstacleBetween env' ap.location receiver = true →
      calculateSignalStrength env' receiver ap = calculateSignalStrength env receiver ap) := by
  refine ⟨?_, ?_, ?_⟩
  · intro ho
    rw [calculateSignalStrength_far env receiver ap d hd hne, ho, if_pos rfl]
  · intro ho
    rw [calculateSignalStrength_far env receiver ap d hd hne, ho]
    simp
  · intro env' ho ho'
    rw [calculateSignalStrength_far env receiver ap d hd hne,
      calculateSignalStrength_far env' receiver ap d hd hne, ho, ho']

/-- Witness of C6: a transmitter of power `100` at `(0, 0)` and the receiver
`(3, 0)`, at distance `3`, with one obstacle on the path. -/
theorem calculateSignalStrength_single_penalty_witness :
    Dbl.hypot ((⟨⟨0, 0⟩, Dbl.num 100⟩ : AccessPoint).location.x - (⟨3, 0⟩ : Point).x)
      ((⟨⟨0, 0⟩, Dbl.num 100⟩ : AccessPoint).location.y - (⟨3, 0⟩ : Point).y) = Dbl.num 3 ∧
    (3 : ℝ) ≠ 0 ∧
    ((hasObstacleBetween (addObstacle (Environment.new 4 1) 1 0)
        (⟨⟨0, 0⟩, Dbl.num 100⟩ : AccessPoint).location ⟨3, 0⟩ = true →
      calculateSignalStrength (addObstacle (Environment.new 4 1) 1 0) ⟨3, 0⟩
          ⟨⟨0, 0⟩, Dbl.num 100⟩ =
        Dbl.sub (Dbl.sub (⟨⟨0, 0⟩, Dbl.num 100⟩ : AccessPoint).txPower
          (Dbl.num (10 * 4 * Real.logb 10 3))) (Dbl.num 25)) ∧
    (hasObstacleBetween (addObstacle (Environment.new 4 1) 1 0)
        (⟨⟨0, 0⟩, Dbl.num 100⟩ : AccessPoint).location ⟨3, 0⟩ = false →
      calculateSignalStrength (addObstacle (Environment.new 4 1) 1 0) ⟨3, 0⟩
          ⟨⟨0, 0⟩, Dbl.num 100⟩ =
        Dbl.sub (⟨⟨0, 0⟩, Dbl.num 100⟩ : AccessPoint).txPower
          (Dbl.num (10 * 4 * Real.logb 10 3))) ∧
    (∀ env' : Environment,
      hasObstacleBetween (addObstacle (Environment.new 4 1) 1 0)
        (⟨⟨0, 0⟩, Dbl.num 100⟩ : AccessPoint).location ⟨3, 0⟩ = true →
      hasObstacleBetween env' (⟨⟨0, 0⟩, Dbl.num 100⟩ : AccessPoint).location ⟨3, 0⟩ = true →
      calculateSignalStrength env' ⟨3, 0⟩ ⟨⟨0, 0⟩, Dbl.num 100⟩ =
        calculateSignalStrength (addObstacle (Environment.new 4 1) 1 0) ⟨3, 0⟩
          ⟨⟨0, 0⟩, Dbl.num 100⟩)) :=
  have h3 : Dbl.hypot ((⟨⟨0, 0⟩, Dbl.num 100⟩ : AccessPoint).location.x - (⟨3, 0⟩ : Point).x)
      ((⟨⟨0, 0⟩, Dbl.num 100⟩ : AccessPoint).location.y - (⟨3, 0⟩ : Point).y) = Dbl.num 3 := by
    unfold Dbl.hypot
    congr 1
    rw [show (((0 : Int) - 3 : Int) : ℝ) ^ 2 + (((0 : Int) - 0 : Int) : ℝ) ^ 2 = (3 : ℝ) ^ 2 by
      norm_num]
    exact Real.sqrt_sq (by norm_num)
  ⟨h3, by norm_num,
   calculateSignalStrength_single_penalty (addObstacle (Environment.new 4 1) 1 0) ⟨3, 0⟩
     ⟨⟨0, 0⟩, Dbl.num 100⟩ 3 h3 (by norm_num)⟩

/-- Claim C7.  Over real arithmetic (every transmit power a real number), for
every non-obstacle cell of an environment with at least one transmitter, the
value `simulate` stores is `10 * log10` of the sum over all transmitters of
`10 ^ (s / 10)`, where `s` is `calculateSignalStrength` of the cell for that
transmitter. -/
theorem simulate_stores_power_sum (env : Environment) (hwf : env.WF) (x y : Nat)
    (hx : (x : Int) < env.width) (hy : (y : Int) < env.height)
    (hobs : isObstacle env x y = false) (hne : env.accessPoints ≠ [])
    (hfin : ∀ ap ∈ env.accessPoints, ∃ p, ap.txPower = Dbl.num p) :
    ∃ s : List ℝ,
      env.accessPoints.map (calculateSignalStrength env ⟨x, y⟩) = s.map Dbl.num ∧
      readCell (simulate env).signalStrength x y =
        some (Dbl.num (10 * Real.logb 10 (s.map (fun v => (10 : ℝ) ^ (v / 10))).sum)) := by
  refine ⟨env.accessPoints.map (fun ap => (calculateSignalStrength env ⟨x, y⟩ ap).toReal),
    ?_, ?_⟩
  · rw [List.map_map]
    apply List.map_congr_left
    intro ap hap
    obtain ⟨p, hp⟩ := hfin ap hap
    obtain ⟨s, hs⟩ := calculateSignalStrength_num env ⟨x, y⟩ ap p hp
    simp [hs, Dbl.toReal]
  · obtain ⟨_, _, _, hsig⟩ := hwf
    have hx' : x < env.width.toNat := by omega
    have hy' : y < env.height.toNat := by omega
    obtain ⟨old, hold⟩ := readCell_isSome_of_gridDims env.signalStrength env.width.toNat
      env.height.toNat x y hsig hx' hy'
    have hsum : 0 < (env.accessPoints.map (fun ap =>
        (10 : ℝ) ^ ((calculateSignalStrength env ⟨x, y⟩ ap).toReal / 10))).sum := by
      apply List.sum_pos
      · intro v hv
        obtain ⟨ap, _, rfl⟩ := List.mem_map.mp hv
        exact Real.rpow_pos_of_pos (by norm_num) _
      · simpa using hne
    rw [readCell_simulate, if_pos ⟨hx', hy'⟩, hold, Option.map_some']
    unfold simValue
    rw [totalSignal_num env ⟨x, y⟩ hfin]
    simp only [hobs, Bool.false_eq_true, if_false, Dbl.gtZero, hsum, if_true, Dbl.log10,
      Dbl.mul, List.map_map]
    rfl

/-- Witness of C7: the cell `(1, 0)` of a 2x1 environment with one transmitter
of power `95` at `(0, 0)`. -/
theorem simulate_stores_power_sum_witness :
    (addAccessPoint (Environment.new 2 1) 0 0 (Dbl.num 95)).WF ∧
    ((1 : Nat) : Int) < (addAccessPoint (Environment.new 2 1) 0 0 (Dbl.num 95)).width ∧
    ((0 : Nat) : Int) < (addAccessPoint (Environment.new 2 1) 0 0 (Dbl.num 95)).height ∧
    isObstacle (addAccessPoint (Environment.new 2 1) 0 0 (Dbl.num 95)) (1 : Nat) (0 : Nat)
      = false ∧
    (addAccessPoint (Environment.new 2 1) 0 0 (Dbl.num 95)).accessPoints ≠ [] ∧
    (∀ ap ∈ (addAccessPoint (Environment.new 2 1) 0 0 (Dbl.num 95)).accessPoints,
      ∃ p, ap.txPower = Dbl.num p) ∧
    ∃ s : List ℝ,
      (addAccessPoint (Environment.new 2 1) 0 0 (Dbl.num 95)).accessPoints.map
        (calculateSignalStrength (addAccessPoint (Environment.new 2 1) 0 0 (Dbl.num 95))
          ⟨(1 : Nat), (0 : Nat)⟩) = s.map Dbl.num ∧
      readCell (simulate (addAccessPoint (Environment.new 2 1) 0 0 (Dbl.num 95))).signalStrength
        1 0 =
        some (Dbl.num (10 * Real.logb 10 (s.map (fun v => (10 : ℝ) ^ (v / 10))).sum)) :=
  have hne : (addAccessPoint (Environment.new 2 1) 0 0 (Dbl.num 95)).accessPoints ≠ [] := by
    simp [addAccessPoint, Environment.new, isValid]
  have hfin : ∀ ap ∈ (addAccessPoint (Environment.new 2 1) 0 0 (Dbl.num 95)).accessPoints,
      ∃ p, ap.txPower = Dbl.num p := by
    intro ap hap
    simp [addAccessPoint, Environment.new, isValid] at hap
    exact ⟨95, by rw [hap]⟩
  ⟨by decide, by decide, by decide, by decide, hne, hfin,
   simulate_stores_power_sum (addAccessPoint (Environment.new 2 1) 0 0 (Dbl.num 95))
     (by decide) 1 0 (by decide) (by decide) (by decide) hne hfin⟩

/-- Claim C8, as stated, fails.  In the 2x1 environment with an obstacle at
`(0, 0)` and a transmitter of power `100` at `(1, 0)`, the value stored for the
obstacle cell after `simulate` is the constructor's `0.0`, which is a number:
the engine never stores not-a-number, the `NaN` token is written by
`saveSignalStrength` from the obstacle mask. -/
theorem simulate_obstacle_cell_not_nan :
    isObstacle (addAccessPoint (addObstacle (Environment.new 2 1) 0 0) 1 0 (Dbl.num 100))
      0 0 = true ∧
    readCell (simulate
      (addAccessPoint (addObstacle (Environment.new 2 1) 0 0) 1 0 (Dbl.num 100))).signalStrength
      0 0 = some (Dbl.num 0) ∧
    Dbl.num 0 ≠ Dbl.nan := by
  refine ⟨by decide, ?_, fun h => Dbl.noConfusion h⟩
  have hobs : isObstacle
      (addAccessPoint (addObstacle (Environment.new 2 1) 0 0) 1 0 (Dbl.num 100))
      ((0 : Nat) : Int) ((0 : Nat) : Int) = true := by decide
  rw [readCell_simulate]
  unfold simValue
  rw [hobs]
  simp [addAccessPoint, addObstacle, Environment.new, isValid, readCell, writeCell]

/-- Claim C8, amended.  For every environment, every transmitter collection and
every cell marked as obstacle, the value stored for the cell after `simulate` is
the value it held before; in an environment set up from the constructor by
`addObstacle` and `addAccessPoint` calls that value is `0.0`, the constructor's
default, not the not-a-number sentinel. -/
theorem simulate_keeps_obstacle_cells (env : Environment) (x y : Nat)
    (hobs : isObstacle env x y = true) :
    readCell (simulate env).signalStrength x y = readCell env.signalStrength x y ∧
    (∀ (w h : Int) (calls : List Call), Call.simulate ∉ calls →
      env = runCalls (Environment.new w h) calls →
      readCell (simulate env).signalStrength x y = some (Dbl.num 0)) := by
  have hkeep : readCell (simulate env).signalStrength x y =
      readCell env.signalStrength x y := by
    rw [readCell_simulate]
    split_ifs
    · unfold simValue
      rw [hobs]
      cases readCell env.signalStrength x y <;> rfl
    · rfl
  refine ⟨hkeep, ?_⟩
  intro w h calls hsetup henv
  obtain ⟨hs, hw, hh⟩ := runCalls_setup_frame (Environment.new w h) calls hsetup
  rw [← henv] at hs hw hh
  have hv : isValid env x y = true := by
    unfold isObstacle at hobs
    rw [Bool.and_eq_true] at hobs
    exact hobs.1
  rw [isValid_iff, hw, hh] at hv
  rw [hkeep, hs]
  exact readCell_new_signal w h x y hv.2.1 hv.2.2.2

/-- Witness of C8, amended: the obstacle cell `(0, 0)` of a 2x1 environment
with a transmitter at `(1, 0)`. -/
theorem simulate_keeps_obstacle_cells_witness :
    isObstacle (addAccessPoint (addObstacle (Environment.new 2 1) 0 0) 1 0 (Dbl.num 100))
      (0 : Nat) (0 : Nat) = true ∧
    (readCell (simulate
        (addAccessPoint (addObstacle (Environment.new 2 1) 0 0) 1 0 (Dbl.num 100))).signalStrength
        0 0 =
      readCell (addAccessPoint (addObstacle (Environment.new 2 1) 0 0) 1 0
        (Dbl.num 100)).signalStrength 0 0 ∧
    (∀ (w h : Int) (calls : List Call), Call.simulate ∉ calls →
      addAccessPoint (addObstacle (Environment.new 2 1) 0 0) 1 0 (Dbl.num 100) =
        runCalls (Environment.new w h) calls →
      readCell (simulate
        (addAccessPoint (addObstacle (Environment.new 2 1) 0 0) 1 0 (Dbl.num 100))).signalStrength
        0 0 = some (Dbl.num 0))) :=
  ⟨by decide,
   simulate_keeps_obstacle_cells
     (addAccessPoint (addObstacle (Environment.new 2 1) 0 0) 1 0 (Dbl.num 100)) 0 0
     (by decide)⟩

/-- Claim C9.  Running `simulate` a second time changes nothing: the signal
grid of `simulate (simulate env)` is the signal grid of `simulate env`, in every
cell, and so are the members `simulate` never writes. -/
theorem simulate_idempotent (env : Environment) :
    (simulate (simulate env)).signalStrength = (simulate env).signalStrength ∧
    (∀ x y : Nat, readCell (simulate (simulate env)).signalStrength x y =
      readCell (simulate env).signalStrength x y) ∧
    simulate (simulate env) = simulate env := by
  have hval : ∀ (x y : Nat) (old : Dbl),
      simValue (simulate env) x y old = simValue env x y old := by
    intro x y old
    rw [simulate_eq]
    rfl
  obtain ⟨hw, hh, ho, ha⟩ := simulate_frame env
  have hcell : ∀ x y : Nat, readCell (simulate (simulate env)).signalStrength x y =
      readCell (simulate env).signalStrength x y := by
    intro x y
    rw [readCell_simulate (simulate env), hw, hh]
    split_ifs with hin
    · rw [readCell_simulate env, if_pos hin]
      cases readCell env.signalStrength x y with
      | none => rfl
      | some old =>
        simp only [Option.map_some', hval, simValue_idem]
    · rfl
  have hgrid : (simulate (simulate env)).signalStrength = (simulate env).signalStrength :=
    grid_ext _ _ (map_length_simulate (simulate env)) hcell
  refine ⟨hgrid, hcell, ?_⟩
  obtain ⟨hw2, hh2, ho2, ha2⟩ := simulate_frame (simulate env)
  cases h1 : simulate (simulate env) with
  | mk w1 h1' o1 s1 a1 =>
    cases h2 : simulate env with
    | mk w2 h2' o2 s2 a2 =>
      rw [h1, h2] at hgrid hw2 hh2 ho2 ha2
      simp only at hgrid hw2 hh2 ho2 ha2
      rw [hgrid, hw2, hh2, ho2, ha2]

/-- Claim C10.  With an empty transmitter collection `simulate` returns the
environment as it was: every cell of the signal grid keeps the value it had
before the call, which is the constructor's `0.0` in an environment set up from
the constructor by `addObstacle` and `addAccessPoint` calls.  It is a total
function: no error is raised. -/
theorem simulate_without_transmitters (env : Environment) (hno : env.accessPoints = []) :
    simulate env = env ∧
    (∀ x y : Nat, readCell (simulate env).signalStrength x y =
      readCell env.signalStrength x y) ∧
    (∀ (w h : Int) (calls : List Call), Call.simulate ∉ calls →
      env = runCalls (Environment.new w h) calls →
      ∀ x y : Nat, (x : Int) < w → (y : Int) < h →
        readCell (simulate env).signalStrength x y = some (Dbl.num 0)) := by
  have hstep : ∀ (x y : Nat) (g : List (List Dbl)), cellStep env x y g = g := by
    intro x y g
    unfold cellStep totalSignal
    rw [hno]
    simp [Dbl.gtZero]
  have hsim : simulate env = env := by
    rw [simulate_eq]
    simp only [hstep, foldl_const]
  refine ⟨hsim, ?_, ?_⟩
  · intro x y
    rw [hsim]
  · intro w h calls hsetup henv x y hx hy
    obtain ⟨hs, _, _⟩ := runCalls_setup_frame (Environment.new w h) calls hsetup
    rw [hsim, henv, hs]
    exact readCell_new_signal w h x y hx hy

/-- Witness of C10: a freshly built 2x2 environment with one obstacle. -/
theorem simulate_without_transmitters_witness :
    (addObstacle (Environment.new 2 2) 1 1).accessPoints = [] ∧
    (simulate (addObstacle (Environment.new 2 2) 1 1) = addObstacle (Environment.new 2 2) 1 1 ∧
    (∀ x y : Nat, readCell (simulate (addObstacle (Environment.new 2 2) 1 1)).signalStrength x y =
      readCell (addObstacle (Environment.new 2 2) 1 1).signalStrength x y) ∧
    (∀ (w h : Int) (calls : List Call), Call.simulate ∉ calls →
      addObstacle (Environment.new 2 2) 1 1 = runCalls (Environment.new w h) calls →
      ∀ x y : Nat, (x : Int) < w → (y : Int) < h →
        readCell (simulate (addObstacle (Environment.new 2 2) 1 1)).signalStrength x y =
          some (Dbl.num 0))) :=
  ⟨rfl, simulate_without_transmitters (addObstacle (Environment.new 2 2) 1 1) rfl⟩

/-! ## The stored value of a cell, over real arithmetic -/

theorem wf_signal_cell (env : Environment) (hwf : env.WF) (x y : Nat)
    (hx : (x : Int) < env.width) (hy : (y : Int) < env.height) :
    ∃ old, readCell env.signalStrength x y = some old := by
  obtain ⟨_, _, _, hsig⟩ := hwf
  exact readCell_isSome_of_gridDims env.signalStrength env.width.toNat env.height.toNat x y
    hsig (by omega) (by omega)

theorem readCell_simulate_of_total (env : Environment) (hwf : env.WF) (x y : Nat)
    (hx : (x : Int) < env.width) (hy : (y : Int) < env.height)
    (hobs : isObstacle env x y = false) (S : ℝ)
    (htot : totalSignal env ⟨x, y⟩ = Dbl.num S) (hS : 0 < S) :
    readCell (simulate env).signalStrength x y = some (Dbl.num (10 * Real.logb 10 S)) := by
  obtain ⟨old, hold⟩ := wf_signal_cell env hwf x y hx hy
  have hx' : x < env.width.toNat := by omega
  have hy' : y < env.height.toNat := by omega
  rw [readCell_simulate, if_pos ⟨hx', hy'⟩, hold, Option.map_some']
  unfold simValue
  rw [htot]
  simp only [hobs, Bool.false_eq_true, if_false, Dbl.gtZero, hS, if_true, Dbl.log10, Dbl.mul]

theorem ten_logb_rpow (s : ℝ) : 10 * Real.logb 10 ((10 : ℝ) ^ (s / 10)) = s := by
  rw [Real.logb_rpow (by norm_num) (by norm_num)]
  ring

theorem totalSignal_single (env : Environment) (receiver : Point) (ap : AccessPoint) (s : ℝ)
    (hone : env.accessPoints = [ap])
    (hs : calculateSignalStrength env receiver ap = Dbl.num s) :
    totalSignal env receiver = Dbl.num ((10 : ℝ) ^ (s / 10)) := by
  unfold totalSignal
  rw [hone]
  simp [hs, Dbl.add, Dbl.pow, Dbl.div]

theorem readCell_simulate_single (env : Environment) (hwf : env.WF) (x y : Nat)
    (hx : (x : Int) < env.width) (hy : (y : Int) < env.height)
    (hobs : isObstacle env x y = false) (ap : AccessPoint) (s : ℝ)
    (hone : env.accessPoints = [ap])
    (hs : calculateSignalStrength env ⟨x, y⟩ ap = Dbl.num s) :
    readCell (simulate env).signalStrength x y = some (Dbl.num s) := by
  rw [readCell_simulate_of_total env hwf x y hx hy hobs _
    (totalSignal_single env ⟨x, y⟩ ap s hone hs) (Real.rpow_pos_of_pos (by norm_num) _),
    ten_logb_rpow]

theorem calculateSignalStrength_colocated (env : Environment) (receiver : Point)
    (ap : AccessPoint) (h : ap.location = receiver) :
    calculateSignalStrength env receiver ap = ap.txPower := by
  unfold calculateSignalStrength Dbl.hypot
  rw [h]
  simp [Dbl.eqZero]

theorem totalSignal_append (env : Environment) (receiver : Point) (t : AccessPoint) :
    totalSignal { env with accessPoints := env.accessPoints ++ [t] } receiver =
      Dbl.add (totalSignal env receiver)
        (Dbl.pow (Dbl.num 10)
          (Dbl.div (calculateSignalStrength env receiver t) (Dbl.num 10))) := by
  unfold totalSignal
  simp only [List.foldl_append, List.foldl_cons, List.foldl_nil]
  rfl

theorem totalSignal_pos (env : Environment) (receiver : Point) (hne : env.accessPoints ≠ [])
    (hfin : ∀ ap ∈ env.accessPoints, ∃ p, ap.txPower = Dbl.num p) :
    ∃ S : ℝ, totalSignal env receiver = Dbl.num S ∧ 0 < S := by
  refine ⟨_, totalSignal_num env receiver hfin, ?_⟩
  apply List.sum_pos
  · intro v hv
    obtain ⟨ap, _, rfl⟩ := List.mem_map.mp hv
    exact Real.rpow_pos_of_pos (by norm_num) _
  · simpa using hne

theorem totalSignal_perm (env : Environment) (receiver : Point) (aps : List AccessPoint)
    (hperm : aps.Perm env.accessPoints) :
    totalSignal { env with accessPoints := aps } receiver = totalSignal env receiver := by
  unfold totalSignal
  have hcalc : ∀ ap, calculateSignalStrength { env with accessPoints := aps } receiver ap =
      calculateSignalStrength env receiver ap := fun _ => rfl
  simp only [hcalc]
  apply List.Perm.foldl_eq' hperm
  intro a _ b _ z
  cases z <;>
    cases Dbl.pow (Dbl.num 10) (Dbl.div (calculateSignalStrength env receiver a) (Dbl.num 10)) <;>
    cases Dbl.pow (Dbl.num 10) (Dbl.div (calculateSignalStrength env receiver b) (Dbl.num 10)) <;>
    simp [Dbl.add, add_right_comm]

/-! ## Numeric bounds for the scenarios -/

theorem logb_ten_three_bounds :
    (52 : ℝ) / 109 < Real.logb 10 3 ∧ Real.logb 10 3 < (73 : ℝ) / 153 := by
  have h10 : (0 : ℝ) < Real.log 10 := Real.log_pos (by norm_num)
  have hlo : (52 : ℝ) * Real.log 10 < 109 * Real.log 3 := by
    have h := Real.log_lt_log (by norm_num : (0 : ℝ) < 10 ^ 52)
      (by norm_num : (10 : ℝ) ^ 52 < 3 ^ 109)
    rw [Real.log_pow, Real.log_pow] at h
    exact_mod_cast h
  have hhi : (153 : ℝ) * Real.log 3 < 73 * Real.log 10 := by
    have h := Real.log_lt_log (by norm_num : (0 : ℝ) < 3 ^ 153)
      (by norm_num : (3 : ℝ) ^ 153 < 10 ^ 73)
    rw [Real.log_pow, Real.log_pow] at h
    exact_mod_cast h
  unfold Real.logb
  constructor
  · rw [div_lt_div_iff₀ (by norm_num) h10]
    linarith
  · rw [div_lt_div_iff₀ h10 (by norm_num)]
    linarith

theorem hypot_three_zero : Dbl.hypot ((0 : Int) - 3) ((0 : Int) - 0) = Dbl.num 3 := by
  unfold Dbl.hypot
  congr 1
  rw [show (((0 : Int) - 3 : Int) : ℝ) ^ 2 + (((0 : Int) - 0 : Int) : ℝ) ^ 2 = (3 : ℝ) ^ 2 by
    norm_num]
  exact Real.sqrt_sq (by norm_num)

/-! ## The text written by the serializer -/

theorem foldl_append_eq_flatten {α β : Type} (f : β → List α) (xs : List β) (acc : List α) :
    xs.foldl (fun o x => o ++ f x) acc = acc ++ (xs.map f).flatten := by
  induction xs generalizing acc with
  | nil => simp
  | cons x xs ih => simp [ih, List.append_assoc]

theorem splitOnP_terminated {α : Type} (p : α → Bool) (sep : α) (hsep : p sep = true)
    (pieces : List (List α)) (h : ∀ l ∈ pieces, ∀ c ∈ l, ¬ p c = true) :
    (pieces.map (fun l => l ++ [sep])).flatten.splitOnP p = pieces ++ [[]] := by
  induction pieces with
  | nil => simp
  | cons l ls ih =>
    simp only [List.map_cons, List.flatten_cons, List.append_assoc, List.singleton_append,
      List.cons_append]
    rw [List.splitOnP_first p l (h l (List.mem_cons_self _ _)) sep hsep, List.nil_append,
      ih (fun l' hl' => h l' (List.mem_cons_of_mem _ hl'))]

theorem saveCell_eq (fmt : Dbl → List Char) (env : Environment) (x y : Nat) :
    saveCell fmt env x y = cellToken fmt env x y ++ [' '] := by
  unfold saveCell cellToken
  split_ifs <;> rfl

/-- The content of line `y` of the output, without its line break. -/
theorem saveRow_eq (fmt : Dbl → List Char) (env : Environment) (out : List Char) (y : Nat) :
    saveRow fmt env out y =
      out ++ (((List.range env.width.toNat).map (fun x => cellToken fmt env x y)).map
        (fun t => t ++ [' '])).flatten ++ ['\n'] := by
  unfold saveRow
  rw [foldl_append_eq_flatten, List.map_map]
  simp only [saveCell_eq]
  rfl

theorem saveSignalStrength_eq (fmt : Dbl → List Char) (env : Environment) :
    saveSignalStrength fmt env =
      (((List.range env.height.toNat).map (fun y =>
        (((List.range env.width.toNat).map (fun x => cellToken fmt env x y)).map
          (fun t => t ++ [' '])).flatten)).map (fun l => l ++ ['\n'])).flatten := by
  unfold saveSignalStrength
  have h : saveRow fmt env = fun out y => out ++
      ((((List.range env.width.toNat).map (fun x => cellToken fmt env x y)).map
        (fun t => t ++ [' '])).flatten ++ ['\n']) := by
    funext out y
    rw [saveRow_eq, List.append_assoc]
  rw [h, foldl_append_eq_flatten, List.map_map]
  simp only [List.nil_append]
  rfl

theorem cellToken_no_whitespace (fmt : Dbl → List Char) (env : Environment) (x y : Nat)
    (hfmt : ∀ d, ∀ c ∈ fmt d, c.isWhitespace = false) :
    ∀ c ∈ cellToken fmt env x y, c.isWhitespace = false := by
  unfold cellToken
  split_ifs
  · intro c hc
    simp only [nanToken, List.mem_cons, List.mem_singleton, List.not_mem_nil, or_false] at hc
    rcases hc with rfl | rfl | rfl <;> decide
  · exact hfmt _

theorem cellToken_ne_nil (fmt : Dbl → List Char) (env : Environment) (x y : Nat)
    (hfmt : ∀ d, fmt d ≠ []) : cellToken fmt env x y ≠ [] := by
  unfold cellToken
  split_ifs
  · simp [nanToken]
  · exact hfmt _

theorem linesOf_saveSignalStrength (fmt : Dbl → List Char) (env : Environment)
    (hfmt : ∀ d, ∀ c ∈ fmt d, c.isWhitespace = false) :
    linesOf (saveSignalStrength fmt env) =
      (List.range env.height.toNat).map (fun y =>
        (((List.range env.width.toNat).map (fun x => cellToken fmt env x y)).map
          (fun t => t ++ [' '])).flatten) := by
  unfold linesOf
  rw [saveSignalStrength_eq, splitOnP_terminated _ '\n' (by decide), List.dropLast_concat]
  intro l hl c hc
  obtain ⟨y, _, rfl⟩ := List.mem_map.mp hl
  obtain ⟨piece, hpiece, hcp⟩ := List.mem_flatten.mp hc
  obtain ⟨t, ht, rfl⟩ := List.mem_map.mp hpiece
  obtain ⟨x, _, rfl⟩ := List.mem_map.mp ht
  rcases List.mem_append.mp hcp with hct | hcs
  · have hw := cellToken_no_whitespace fmt env x y hfmt c hct
    intro hnl
    have hceq : c = '\n' := by simpa using hnl
    rw [hceq] at hw
    exact absurd hw (by decide)
  · have hceq : c = ' ' := by simpa using hcs
    rw [hceq]
    decide

theorem tokensOf_line (fmt : Dbl → List Char) (env : Environment) (y : Nat)
    (hfmt : ∀ d, ∀ c ∈ fmt d, c.isWhitespace = false) (hne : ∀ d, fmt d ≠ []) :
    tokensOf ((((List.range env.width.toNat).map (fun x => cellToken fmt env x y)).map
        (fun t => t ++ [' '])).flatten) =
      (List.range env.width.toNat).map (fun x => cellToken fmt env x y) := by
  unfold tokensOf
  rw [splitOnP_terminated Char.isWhitespace ' ' (by decide)]
  · rw [List.filter_append]
    have h1 : List.filter (fun t => !t.isEmpty)
        ((List.range env.width.toNat).map (fun x => cellToken fmt env x y)) =
        (List.range env.width.toNat).map (fun x => cellToken fmt env x y) := by
      rw [List.filter_eq_self]
      intro t ht
      obtain ⟨x, _, rfl⟩ := List.mem_map.mp ht
      have := cellToken_ne_nil fmt env x y hne
      cases hc : cellToken fmt env x y with
      | nil => exact absurd hc this
      | cons a l => rfl
    rw [h1]
    simp
  · intro t ht c hc
    obtain ⟨x, _, rfl⟩ := List.mem_map.mp ht
    rw [cellToken_no_whitespace fmt env x y hfmt c hc]
    decide

/-! ## Invariants of the environment -/

theorem gridDims_replicate {α : Type} (w h : Nat) (v : α) :
    GridDims (List.replicate h (List.replicate w v)) w h := by
  unfold GridDims
  refine ⟨List.length_replicate _ _, ?_⟩
  intro row hrow
  rw [List.eq_of_mem_replicate hrow, List.length_replicate]

theorem wf_new (w h : Int) (hw : 0 ≤ w) (hh : 0 ≤ h) : (Environment.new w h).WF :=
  ⟨hw, hh, gridDims_replicate _ _ _, gridDims_replicate _ _ _⟩

theorem wf_addObstacle (env : Environment) (hwf : env.WF) (x y : Int) :
    (addObstacle env x y).WF := by
  unfold addObstacle
  split_ifs
  · obtain ⟨hw, hh, hobs, hsig⟩ := hwf
    exact ⟨hw, hh, gridDims_writeCell _ _ _ _ _ _ hobs, hsig⟩
  · exact hwf

theorem wf_addAccessPoint (env : Environment) (hwf : env.WF) (x y : Int) (p : Dbl) :
    (addAccessPoint env x y p).WF := by
  unfold addAccessPoint
  split_ifs
  · exact hwf
  · exact hwf

theorem wf_simulate (env : Environment) (hwf : env.WF) : (simulate env).WF := by
  obtain ⟨hw, hh, hobs, hsig⟩ := hwf
  obtain ⟨ew, eh, eo, _⟩ := simulate_frame env
  refine ⟨by rw [ew]; exact hw, by rw [eh]; exact hh, by rw [ew, eh, eo]; exact hobs, ?_⟩
  rw [ew, eh, gridDims_iff_map_length, map_length_simulate, ← gridDims_iff_map_length]
  exact hsig

theorem wf_run (env : Environment) (hwf : env.WF) (c : Call) : (Call.run env c).WF := by
  cases c with
  | addObstacle x y => exact wf_addObstacle env hwf x y
  | addAccessPoint x y p => exact wf_addAccessPoint env hwf x y p
  | simulate => exact wf_simulate env hwf

theorem wf_runCalls (env : Environment) (hwf : env.WF) (calls : List Call) :
    (runCalls env calls).WF := by
  induction calls generalizing env with
  | nil => exact hwf
  | cons c cs ih => exact ih (Call.run env c) (wf_run env hwf c)

theorem run_dims (env : Environment) (c : Call) :
    (Call.run env c).width = env.width ∧ (Call.run env c).height = env.height := by
  cases c with
  | addObstacle x y =>
    obtain ⟨_, _, hw, hh⟩ := addObstacle_frame env x y
    exact ⟨hw, hh⟩
  | addAccessPoint x y p =>
    obtain ⟨_, _, hw, hh⟩ := addAccessPoint_frame env x y p
    exact ⟨hw, hh⟩
  | simulate =>
    obtain ⟨hw, hh, _, _⟩ := simulate_frame env
    exact ⟨hw, hh⟩

theorem runCalls_dims (env : Environment) (calls : List Call) :
    (runCalls env calls).width = env.width ∧ (runCalls env calls).height = env.height := by
  induction calls generalizing env with
  | nil => exact ⟨rfl, rfl⟩
  | cons c cs ih =>
    obtain ⟨h1, h2⟩ := ih (Call.run env c)
    obtain ⟨h3, h4⟩ := run_dims env c
    exact ⟨h1.trans h3, h2.trans h4⟩

theorem transmittersValid_run (env : Environment) (hinv : TransmittersValid env) (c : Call) :
    TransmittersValid (Call.run env c) := by
  cases c with
  | addObstacle x y =>
    obtain ⟨_, ha, hw, hh⟩ := addObstacle_frame env x y
    intro ap hap
    rw [show (Call.run env (Call.addObstacle x y)).accessPoints = env.accessPoints from ha] at hap
    have := hinv ap hap
    rw [isValid_iff] at this ⊢
    rw [show (Call.run env (Call.addObstacle x y)).width = env.width from hw,
      show (Call.run env (Call.addObstacle x y)).height = env.height from hh]
    exact this
  | addAccessPoint x y p =>
    intro ap hap
    show isValid (addAccessPoint env x y p) ap.location.x ap.location.y = true
    have hap' : ap ∈ (addAccessPoint env x y p).accessPoints := hap
    unfold addAccessPoint at hap' ⊢
    by_cases hv : isValid env x y = true
    · simp only [hv, if_true] at hap' ⊢
      rcases List.mem_append.mp hap' with hold | hnew
      · exact hinv ap hold
      · rw [List.mem_singleton] at hnew
        rw [hnew]
        exact hv
    · simp only [hv, if_false, Bool.false_eq_true] at hap' ⊢
      exact hinv ap hap'
  | simulate =>
    obtain ⟨hw, hh, _, ha⟩ := simulate_frame env
    intro ap hap
    rw [show (Call.run env Call.simulate).accessPoints = env.accessPoints from ha] at hap
    have := hinv ap hap
    rw [isValid_iff] at this ⊢
    rw [show (Call.run env Call.simulate).width = env.width from hw,
      show (Call.run env Call.simulate).height = env.height from hh]
    exact this

theorem transmittersValid_runCalls (env : Environment) (hinv : TransmittersValid env)
    (calls : List Call) : TransmittersValid (runCalls env calls) := by
  induction calls generalizing env with
  | nil => exact hinv
  | cons c cs ih => exact ih (Call.run env c) (transmittersValid_run env hinv c)

/-! ## Tested cells lie on the walked path, inside the bounding box -/

theorem losLoop_snd_subset (obs : Int → Int → Bool) (xi yi dx dy : Int) (n : Nat)
    (x y e : Int) (p : Point) (hp : p ∈ (losLoop obs xi yi dx dy n x y e).2) :
    p ∈ (losLoop (fun _ _ => false) xi yi dx dy n x y e).2 := by
  induction n generalizing x y e with
  | zero => simp [losLoop] at hp
  | succ n ih =>
    by_cases ho : obs x y = true
    · simp only [losLoop, ho, if_true, List.mem_singleton] at hp
      rw [hp]
      by_cases he : e > 0 <;> simp [losLoop, he]
    · by_cases he : e > 0
      · simp only [losLoop, ho, he, if_true, if_false, Bool.false_eq_true, List.mem_cons]
          at hp ⊢
        rcases hp with hp | hp
        · exact Or.inl hp
        · exact Or.inr (ih _ _ _ hp)
      · simp only [losLoop, ho, he, if_false, Bool.false_eq_true, List.mem_cons] at hp ⊢
        rcases hp with hp | hp
        · exact Or.inl hp
        · exact Or.inr (ih _ _ _ hp)

theorem testedCells_subset_walkedPath (env : Environment) (a b p : Point)
    (hp : p ∈ testedCells env a b) : p ∈ walkedPath a b :=
  losLoop_snd_subset _ _ _ _ _ _ _ _ _ p hp

theorem walkedPath_in_box (a b p : Point) (hp : p ∈ walkedPath a b) :
    min a.x b.x ≤ p.x ∧ p.x ≤ max a.x b.x ∧ min a.y b.y ≤ p.y ∧ p.y ≤ max a.y b.y := by
  by_cases hab : a = b
  · subst hab
    rw [walkedPath_self, List.mem_singleton] at hp
    subst hp
    simp
  · rw [(walkedPath_spec a b hab).2] at hp
    obtain ⟨i, j, hi0, hi, hj0, hj, _, _, rfl⟩ := hp
    simp only
    refine ⟨?_, ?_, ?_, ?_⟩
    · split_ifs with h
      · rw [abs_of_pos (by omega)] at hi
        rw [min_def]; split_ifs <;> omega
      · rw [abs_of_nonpos (by omega)] at hi
        rw [min_def]; split_ifs <;> omega
    · split_ifs with h
      · rw [abs_of_pos (by omega)] at hi
        rw [max_def]; split_ifs <;> omega
      · rw [abs_of_nonpos (by omega)] at hi
        rw [max_def]; split_ifs <;> omega
    · split_ifs with h
      · rw [abs_of_pos (by omega)] at hj
        rw [min_def]; split_ifs <;> omega
      · rw [abs_of_nonpos (by omega)] at hj
        rw [min_def]; split_ifs <;> omega
    · split_ifs with h
      · rw [abs_of_pos (by omega)] at hj
        rw [max_def]; split_ifs <;> omega
      · rw [abs_of_nonpos (by omega)] at hj
        rw [max_def]; split_ifs <;> omega

/-! ## The engine over an arbitrary arithmetic: the loops -/

theorem calculateSignalStrengthIn_exact (env : Environment) (receiver : Point)
    (ap : AccessPoint) :
    calculateSignalStrengthIn Arith.exact env receiver ap =
      calculateSignalStrength env receiver ap := rfl

theorem totalSignalIn_exact (env : Environment) (receiver : Point) :
    totalSignalIn Arith.exact env receiver = totalSignal env receiver := rfl

theorem simulateCellIn_exact (env : Environment) (x y : Nat) :
    simulateCellIn Arith.exact env x y = simulateCell env x y := rfl

/-- In exact arithmetic `simulateIn` is `simulate`. -/
theorem simulateIn_exact (env : Environment) : simulateIn Arith.exact env = simulate env := rfl

theorem simulateCellIn_withSignal (A : Arith) (env : Environment) (g : List (List Dbl))
    (x y : Nat) :
    simulateCellIn A { env with signalStrength := g } x y =
      { env with signalStrength := cellStepIn A env x y g } := by
  have h1 : isObstacle { env with signalStrength := g } x y = isObstacle env x y := rfl
  have h2 : totalSignalIn A { env with signalStrength := g } ⟨x, y⟩ =
      totalSignalIn A env ⟨x, y⟩ := rfl
  unfold simulateCellIn cellStepIn
  simp only [h1, h2]
  split_ifs <;> rfl

theorem foldl_simulateCellIn (A : Arith) (env : Environment) (y : Nat) (xs : List Nat)
    (g : List (List Dbl)) :
    xs.foldl (fun e x => simulateCellIn A e x y) { env with signalStrength := g } =
      { env with signalStrength := xs.foldl (fun g x => cellStepIn A env x y g) g } := by
  induction xs generalizing g with
  | nil => rfl
  | cons x xs ih =>
    simp only [List.foldl_cons]
    rw [simulateCellIn_withSignal, ih]

theorem simulateRowIn_withSignal (A : Arith) (env : Environment) (g : List (List Dbl))
    (y : Nat) :
    simulateRowIn A { env with signalStrength := g } y =
      { env with signalStrength :=
          (List.range env.width.toNat).foldl (fun g x => cellStepIn A env x y g) g } := by
  unfold simulateRowIn
  exact foldl_simulateCellIn A env y _ g

theorem foldl_simulateRowIn (A : Arith) (env : Environment) (ys : List Nat)
    (g : List (List Dbl)) :
    ys.foldl (simulateRowIn A) { env with signalStrength := g } =
      { env with signalStrength :=
          ys.foldl (fun g y =>
            (List.range env.width.toNat).foldl (fun g x => cellStepIn A env x y g) g) g } := by
  induction ys generalizing g with
  | nil => rfl
  | cons y ys ih =>
    simp only [List.foldl_cons]
    rw [simulateRowIn_withSignal, ih]

theorem simulateIn_eq (A : Arith) (env : Environment) :
    simulateIn A env =
      { env with signalStrength :=
          ((List.range env.height.toNat).foldl (fun g y =>
            (List.range env.width.toNat).foldl (fun g x => cellStepIn A env x y g) g)
            env.signalStrength) } := by
  unfold simulateIn
  exact foldl_simulateRowIn A env _ env.signalStrength

theorem readCell_cellStepIn (A : Arith) (env : Environment) (x y x' y' : Nat)
    (g : List (List Dbl)) :
    readCell (cellStepIn A env x y g) x' y' =
      if x' = x ∧ y' = y then (readCell g x' y').map (simValueIn A env x y)
      else readCell g x' y' := by
  unfold cellStepIn simValueIn
  by_cases ho : isObstacle env x y = true
  · simp only [ho, if_true]
    split_ifs
    · cases readCell g x' y' <;> rfl
    · rfl
  · by_cases ht : (totalSignalIn A env ⟨x, y⟩).gtZero
    · simp only [ho, ht, if_true, if_false, Bool.false_eq_true, readCell_writeCell]
    · simp only [ho, ht, if_false, Bool.false_eq_true]
      split_ifs
      · cases readCell g x' y' <;> rfl
      · rfl

theorem readCell_rowFoldIn (A : Arith) (env : Environment) (y : Nat) (n : Nat)
    (g : List (List Dbl)) (x' y' : Nat) :
    readCell ((List.range n).foldl (fun g x => cellStepIn A env x y g) g) x' y' =
      if x' < n ∧ y' = y then (readCell g x' y').map (simValueIn A env x' y')
      else readCell g x' y' := by
  induction n with
  | zero => simp
  | succ n ih =>
    rw [List.range_succ, List.foldl_append, List.foldl_cons, List.foldl_nil,
      readCell_cellStepIn, ih]
    by_cases hy : y' = y
    · subst hy
      by_cases hx : x' = n
      · subst hx; simp
      · by_cases hlt : x' < n
        · have : x' < n + 1 := by omega
          simp [hx, hlt, this]
        · have : ¬ x' < n + 1 := by omega
          simp [hx, hlt, this]
    · simp [hy]

theorem readCell_gridFoldIn (A : Arith) (env : Environment) (w : Nat) (n : Nat)
    (g : List (List Dbl)) (x' y' : Nat) :
    readCell ((List.range n).foldl (fun g y =>
        (List.range w).foldl (fun g x => cellStepIn A env x y g) g) g) x' y' =
      if x' < w ∧ y' < n then (readCell g x' y').map (simValueIn A env x' y')
      else readCell g x' y' := by
  induction n with
  | zero => simp
  | succ n ih =>
    rw [List.range_succ, List.foldl_append, List.foldl_cons, List.foldl_nil,
      readCell_rowFoldIn, ih]
    by_cases hx : x' < w
    · by_cases hy : y' = n
      · subst hy; simp [hx]
      · by_cases hlt : y' < n
        · have : y' < n + 1 := by omega
          simp [hx, hy, hlt, this]
        · have : ¬ y' < n + 1 := by omega
          simp [hx, hy, hlt, this]
    · simp [hx]

/-- The signal grid after `simulateIn`, cell by cell. -/
theorem readCell_simulateIn (A : Arith) (env : Environment) (x y : Nat) :
    readCell (simulateIn A env).signalStrength x y =
      if x < env.width.toNat ∧ y < env.height.toNat then
        (readCell env.signalStrength x y).map (simValueIn A env x y)
      else readCell env.signalStrength x y := by
  rw [simulateIn_eq]
  exact readCell_gridFoldIn A env _ _ _ x y

/-! ## Rounding to binary64 -/

theorem roundHalfEven_eq (t : ℝ) (n : Int) (h : |t - n| < 1 / 2) : roundHalfEven t = n := by
  rw [abs_lt] at h
  obtain ⟨h1, h2⟩ := h
  unfold roundHalfEven
  by_cases hle : (n : ℝ) ≤ t
  · have hfl : ⌊t⌋ = n := by
      rw [Int.floor_eq_iff]
      constructor <;> linarith
    rw [hfl, if_pos (by linarith)]
  · have hfl : ⌊t⌋ = n - 1 := by
      rw [Int.floor_eq_iff]
      push_cast
      constructor <;> linarith
    rw [hfl]
    push_cast
    rw [if_neg (by linarith), if_pos (by linarith)]
    ring

theorem log_two_eq (m : ℝ) (e : ℤ) (hlo : (2 : ℝ) ^ e ≤ m) (hhi : m < (2 : ℝ) ^ (e + 1)) :
    Int.log 2 m = e := by
  have hpos : 0 < m := lt_of_lt_of_le (zpow_pos (by norm_num) e) hlo
  have h2 : ((2 : ℕ) : ℝ) = 2 := by norm_num
  have ha : e ≤ Int.log 2 m := by
    rw [← Int.zpow_le_iff_le_log (by norm_num) hpos, h2]
    exact hlo
  have hb : Int.log 2 m < e + 1 := by
    rw [← Int.lt_zpow_iff_log_lt (by norm_num) hpos, h2]
    exact hhi
  omega

theorem quantum64_eq (m : ℝ) (e : ℤ) (he : -1022 ≤ e) (hlo : (2 : ℝ) ^ e ≤ m)
    (hhi : m < (2 : ℝ) ^ (e + 1)) : quantum64 m = (2 : ℝ) ^ (e - 52) := by
  unfold quantum64
  rw [log_two_eq m e hlo hhi, max_eq_left he]

theorem round64_zero : round64 0 = Dbl.num 0 := by
  unfold round64 quantum64
  have hr : roundHalfEven (0 : ℝ) = 0 := by
    apply roundHalfEven_eq
    norm_num
  simp [hr]

/-- Rounding of a real of magnitude `m` in the normal range whose scaled value
`m / 2 ^ (e - 52)` lies within a half of the integer `n`. -/
theorem round64_eval (m : ℝ) (e n : ℤ) (he1 : -1022 ≤ e) (he2 : e ≤ 1022)
    (hlo : (2 : ℝ) ^ e ≤ m) (hhi : m < (2 : ℝ) ^ (e + 1))
    (hn : |m / (2 : ℝ) ^ (e - 52) - n| < 1 / 2) :
    round64 m = Dbl.num (n * (2 : ℝ) ^ (e - 52)) ∧
    round64 (-m) = Dbl.num (-(n * (2 : ℝ) ^ (e - 52))) := by
  have hpos : 0 < m := lt_of_lt_of_le (zpow_pos (by norm_num) e) hlo
  have hq := quantum64_eq m e he1 hlo hhi
  have hqpos : (0 : ℝ) < (2 : ℝ) ^ (e - 52) := zpow_pos (by norm_num) _
  have hr := roundHalfEven_eq _ n hn
  -- the rounded magnitude does not overflow
  have hbound : (n : ℝ) * (2 : ℝ) ^ (e - 52) < (2 : ℝ) ^ (1024 : ℕ) := by
    have hdiv : m / (2 : ℝ) ^ (e - 52) < (2 : ℝ) ^ (53 : ℕ) := by
      rw [div_lt_iff₀ hqpos]
      have : (2 : ℝ) ^ (53 : ℕ) * (2 : ℝ) ^ (e - 52) = (2 : ℝ) ^ (e + 1) := by
        rw [← zpow_natCast, ← zpow_add₀ (by norm_num)]
        congr 1
        push_cast
        ring
      rw [this]
      exact hhi
    have hnle : (n : ℝ) < (2 : ℝ) ^ (53 : ℕ) + 1 / 2 := by
      rw [abs_lt] at hn
      linarith [hn.1]
    have hnint : n ≤ 2 ^ 53 := by
      by_contra hcon
      have : (2 : ℤ) ^ 53 + 1 ≤ n := by omega
      have hc : ((2 : ℤ) ^ 53 + 1 : ℤ) ≤ n := this
      have hcr : (((2 : ℤ) ^ 53 + 1 : ℤ) : ℝ) ≤ (n : ℝ) := by exact_mod_cast hc
      push_cast at hcr
      linarith
    have hnr : (n : ℝ) ≤ (2 : ℝ) ^ (53 : ℕ) := by exact_mod_cast hnint
    calc (n : ℝ) * (2 : ℝ) ^ (e - 52) ≤ (2 : ℝ) ^ (53 : ℕ) * (2 : ℝ) ^ (e - 52) :=
          mul_le_mul_of_nonneg_right hnr hqpos.le
      _ = (2 : ℝ) ^ (e + 1) := by
          rw [← zpow_natCast, ← zpow_add₀ (by norm_num)]
          congr 1
          push_cast
          ring
      _ ≤ (2 : ℝ) ^ ((1023 : ℤ)) := zpow_le_zpow_right₀ (by norm_num) (by omega)
      _ < (2 : ℝ) ^ (1024 : ℕ) := by
          rw [← zpow_natCast]
          exact zpow_lt_zpow_right₀ (by norm_num) (by norm_num)
  constructor
  · unfold round64
    rw [abs_of_pos hpos, hq, hr, if_pos hbound, if_neg (by linarith)]
  · unfold round64
    rw [abs_neg, abs_of_pos hpos, hq, hr, if_pos hbound, if_pos (by linarith)]

/-- A positive real below half the smallest subnormal number rounds to zero. -/
theorem round64_underflow (m : ℝ) (hpos : 0 < m) (hsmall : m < (2 : ℝ) ^ (-1075 : ℤ)) :
    round64 m = Dbl.num 0 := by
  have h2 : ((2 : ℕ) : ℝ) = 2 := by norm_num
  have hlog : Int.log 2 m ≤ -1022 := by
    have : Int.log 2 m < -1021 := by
      rw [← Int.lt_zpow_iff_log_lt (by norm_num) hpos, h2]
      exact lt_trans hsmall (zpow_lt_zpow_right₀ (by norm_num) (by norm_num))
    omega
  have hq : quantum64 m = (2 : ℝ) ^ (-1074 : ℤ) := by
    unfold quantum64
    rw [max_eq_right hlog]
    norm_num
  have hqpos : (0 : ℝ) < (2 : ℝ) ^ (-1074 : ℤ) := zpow_pos (by norm_num) _
  have hr : roundHalfEven (m / (2 : ℝ) ^ (-1074 : ℤ)) = 0 := by
    apply roundHalfEven_eq
    have hdivpos : 0 < m / (2 : ℝ) ^ (-1074 : ℤ) := div_pos hpos hqpos
    have hdiv : m / (2 : ℝ) ^ (-1074 : ℤ) < 1 / 2 := by
      rw [div_lt_iff₀ hqpos]
      have : (1 : ℝ) / 2 * (2 : ℝ) ^ (-1074 : ℤ) = (2 : ℝ) ^ (-1075 : ℤ) := by
        rw [show (-1075 : ℤ) = (-1074) + (-1) by norm_num, zpow_add₀ (by norm_num)]
        norm_num
      rw [this]
      exact hsmall
    have hz : ((0 : ℤ) : ℝ) = 0 := by norm_num
    rw [hz, sub_zero, abs_of_pos hdivpos]
    exact hdiv
  have hz : ((0 : ℤ) : ℝ) * (2 : ℝ) ^ (-1074 : ℤ) = 0 := by simp
  unfold round64
  rw [abs_of_pos hpos, hq, hr, hz, if_pos (by positivity), if_neg (not_lt.mpr hpos.le)]

/-! ## Values of binary64 arithmetic used below -/

theorem ieee_add (a b : ℝ) : Arith.ieee.add (Dbl.num a) (Dbl.num b) = round64 (a + b) := rfl

theorem calculateSignalStrengthIn_colocated (A : Arith)
    (hhyp : (A.hypot 0 0).eqZero) (env : Environment) (c : Point) (P : Dbl) :
    calculateSignalStrengthIn A env c ⟨c, P⟩ = P := by
  unfold calculateSignalStrengthIn
  simp only [sub_self, hhyp, if_true]

theorem totalSignalIn_single (A : Arith) (env : Environment) (receiver : Point)
    (ap : AccessPoint) (hone : env.accessPoints = [ap]) :
    totalSignalIn A env receiver =
      A.add (Dbl.num 0)
        (A.pow (Dbl.num 10)
          (A.div (calculateSignalStrengthIn A env receiver ap) (Dbl.num 10))) := by
  unfold totalSignalIn
  rw [hone]
  rfl

theorem readCell_simulateIn_colocated (A : Arith) (hhyp : (A.hypot 0 0).eqZero)
    (env : Environment) (cx cy : Nat) (P : Dbl)
    (hobs : isObstacle env cx cy = false)
    (hx : (cx : Int) < env.width) (hy : (cy : Int) < env.height)
    (hone : env.accessPoints = [⟨⟨cx, cy⟩, P⟩]) :
    readCell (simulateIn A env).signalStrength cx cy =
      (readCell env.signalStrength cx cy).map (fun old =>
        if (A.add (Dbl.num 0) (A.pow (Dbl.num 10) (A.div P (Dbl.num 10)))).gtZero then
          A.mul (Dbl.num 10)
            (A.log10 (A.add (Dbl.num 0) (A.pow (Dbl.num 10) (A.div P (Dbl.num 10)))))
        else old) := by
  have hin : cx < env.width.toNat ∧ cy < env.height.toNat := by omega
  have htot : totalSignalIn A env ⟨cx, cy⟩ =
      A.add (Dbl.num 0) (A.pow (Dbl.num 10) (A.div P (Dbl.num 10))) := by
    rw [totalSignalIn_single A env _ _ hone, calculateSignalStrengthIn_colocated A hhyp]
  rw [readCell_simulateIn, if_pos hin]
  congr 1
  funext old
  unfold simValueIn
  rw [htot]
  simp only [hobs, Bool.false_eq_true, if_false]

theorem exact_hypot_zero : (Arith.exact.hypot 0 0).eqZero := by
  show (Dbl.hypot 0 0).eqZero
  unfold Dbl.hypot
  simp [Dbl.eqZero]

theorem ieee_hypot_zero : (Arith.ieee.hypot 0 0).eqZero := by
  show ((Dbl.hypot 0 0).rn).eqZero
  have h : Dbl.hypot 0 0 = Dbl.num 0 := by
    unfold Dbl.hypot
    congr 1
    simp
  rw [h]
  show (round64 0).eqZero
  rw [round64_zero]
  rfl

theorem round64_neg_400 : round64 (-400) = Dbl.num (-400) := by
  have h := (round64_eval 400 8 (400 * 2 ^ 44) (by norm_num) (by norm_num) (by norm_num)
    (by norm_num) (by norm_num)).2
  rw [h]
  congr 1
  norm_num

theorem ten_rpow_neg_400_small :
    (0 : ℝ) < (10 : ℝ) ^ (-400 : ℝ) ∧ (10 : ℝ) ^ (-400 : ℝ) < (2 : ℝ) ^ (-1075 : ℤ) := by
  refine ⟨Real.rpow_pos_of_pos (by norm_num) _, ?_⟩
  have h1 : (10 : ℝ) ^ (-400 : ℝ) = ((10 : ℝ) ^ (400 : ℕ))⁻¹ := by
    rw [Real.rpow_neg (by norm_num)]
    congr 1
    rw [← Real.rpow_natCast]
    congr 1
  have h2 : (2 : ℝ) ^ (-1075 : ℤ) = ((2 : ℝ) ^ (1075 : ℕ))⁻¹ := by
    rw [zpow_neg]
    congr 1
  rw [h1, h2]
  apply inv_strictAnti₀ (by positivity)
  have h8 : (2 : ℝ) ^ (1075 : ℕ) < (8 : ℝ) ^ (400 : ℕ) := by
    have : (8 : ℝ) ^ (400 : ℕ) = (2 : ℝ) ^ (1200 : ℕ) := by
      rw [show (8 : ℝ) = 2 ^ 3 by norm_num, ← pow_mul]
    rw [this]
    exact pow_lt_pow_right₀ (by norm_num) (by norm_num)
  exact lt_trans h8 (pow_lt_pow_left₀ (by norm_num) (by norm_num) (by norm_num))

theorem ieee_linear_power_underflow :
    Arith.ieee.add (Dbl.num 0)
      (Arith.ieee.pow (Dbl.num 10) (Arith.ieee.div (Dbl.num (-4000)) (Dbl.num 10))) =
      Dbl.num 0 := by
  have hdiv : Arith.ieee.div (Dbl.num (-4000)) (Dbl.num 10) = Dbl.num (-400) := by
    show (Dbl.div (Dbl.num (-4000)) (Dbl.num 10)).rn = Dbl.num (-400)
    have : Dbl.div (Dbl.num (-4000)) (Dbl.num 10) = Dbl.num (-400) := by
      have h10 : ¬ (10 : ℝ) = 0 := by norm_num
      simp only [Dbl.div, h10, if_false]
      congr 1
      norm_num
    rw [this]
    exact round64_neg_400
  have hpow : Arith.ieee.pow (Dbl.num 10) (Dbl.num (-400)) = Dbl.num 0 := by
    show (Dbl.pow (Dbl.num 10) (Dbl.num (-400))).rn = Dbl.num 0
    have : Dbl.pow (Dbl.num 10) (Dbl.num (-400)) = Dbl.num ((10 : ℝ) ^ (-400 : ℝ)) := by
      simp [Dbl.pow]
    rw [this]
    exact round64_underflow _ ten_rpow_neg_400_small.1 ten_rpow_neg_400_small.2
  rw [hdiv, hpow, ieee_add, add_zero, round64_zero]

/-! ## A transmitter whose power is not a number -/

theorem totalSignal_nan_last (env : Environment) (receiver : Point) (loc : Point) :
    totalSignal { env with accessPoints := env.accessPoints ++ [⟨loc, Dbl.nan⟩] } receiver =
      Dbl.nan := by
  rw [totalSignal_append]
  have hcalc : ∃ d, Dbl.pow (Dbl.num 10)
      (Dbl.div (calculateSignalStrength env receiver ⟨loc, Dbl.nan⟩) (Dbl.num 10)) = d ∧
      d = Dbl.nan := by
    refine ⟨_, rfl, ?_⟩
    have hnan : calculateSignalStrength env receiver ⟨loc, Dbl.nan⟩ = Dbl.nan := by
      unfold calculateSignalStrength
      simp only
      split_ifs <;> simp [Dbl.sub]
    rw [hnan]
    rfl
  obtain ⟨d, hd, hdn⟩ := hcalc
  rw [hd, hdn]
  cases totalSignal env receiver <;> rfl

theorem readCell_simulate_nan_total (env : Environment) (x y : Nat)
    (htot : totalSignal env ⟨x, y⟩ = Dbl.nan) :
    readCell (simulate env).signalStrength x y = readCell env.signalStrength x y := by
  rw [readCell_simulate]
  split_ifs
  · unfold simValue
    rw [htot]
    cases readCell env.signalStrength x y with
    | none => rfl
    | some old =>
      simp only [Option.map_some', Dbl.gtZero, if_false]
      split_ifs <;> rfl
  · rfl

/-! ## Claims about co-location, monotonicity and transmitter order -/

theorem singleCellScenario_free (p : Dbl) (x y : Int) :
    isObstacle (singleCellScenario p) x y = false := by
  rw [← Bool.not_eq_true, isObstacle_iff, isValid_iff]
  rintro ⟨⟨hx0, hx1, hy0, hy1⟩, hcell⟩
  have hw : (singleCellScenario p).width = 1 := rfl
  have hh : (singleCellScenario p).height = 1 := rfl
  rw [hw] at hx1
  rw [hh] at hy1
  have hx : x = 0 := by omega
  have hy : y = 0 := by omega
  subst hx hy
  have hfalse : readCell (singleCellScenario p).obstacles (Int.toNat 0) (Int.toNat 0) =
      some false := rfl
  rw [hfalse] at hcell
  exact absurd hcell (by decide)

theorem colocatedScenario_free (x y : Int) : isObstacle colocatedScenario x y = false := by
  rw [← Bool.not_eq_true, isObstacle_iff, isValid_iff]
  rintro ⟨⟨hx0, hx1, hy0, hy1⟩, hcell⟩
  have hw : colocatedScenario.width = 3 := rfl
  have hh : colocatedScenario.height = 2 := rfl
  rw [hw] at hx1
  rw [hh] at hy1
  have hxc : x = 0 ∨ x = 1 ∨ x = 2 := by omega
  have hyc : y = 0 ∨ y = 1 := by omega
  rcases hxc with rfl | rfl | rfl <;> rcases hyc with rfl | rfl <;>
    exact absurd hcell (by decide)

/-- Claim C11, as stated, fails.  Take the 1x1 environment without obstacles
whose only transmitter sits at `(0, 0)`.  With a power that is not a number the
linear sum is not a number, the test `totalSignal > 0` fails and the value
stored at `(0, 0)` after `simulate` is the constructor's `0.0`, not the power.
With the power `-4000` the same happens in binary64 arithmetic: `-4000 / 10` is
`-400`, `pow(10, -400)` lies below half the smallest positive double and rounds
to `0`, the sum is `0`, the test fails and the stored value stays `0.0`. -/
theorem simulate_colocated_not_power :
    (∀ (p : Dbl) (x y : Int), isObstacle (singleCellScenario p) x y = false) ∧
    (∀ p : Dbl, (singleCellScenario p).accessPoints = [⟨⟨0, 0⟩, p⟩]) ∧
    readCell (simulate (singleCellScenario Dbl.nan)).signalStrength 0 0 = some (Dbl.num 0) ∧
    Dbl.num 0 ≠ Dbl.nan ∧
    readCell (simulateIn Arith.ieee (singleCellScenario (Dbl.num (-4000)))).signalStrength 0 0 =
      some (Dbl.num 0) ∧
    Dbl.num 0 ≠ Dbl.num (-4000) := by
  refine ⟨singleCellScenario_free, fun _ => rfl, ?_, fun h => Dbl.noConfusion h, ?_, ?_⟩
  · have henv : singleCellScenario Dbl.nan =
        { Environment.new 1 1 with
          accessPoints := (Environment.new 1 1).accessPoints ++ [⟨⟨0, 0⟩, Dbl.nan⟩] } := rfl
    rw [readCell_simulate_nan_total _ 0 0 (by rw [henv]; exact totalSignal_nan_last _ _ _)]
    rfl
  · rw [readCell_simulateIn_colocated Arith.ieee ieee_hypot_zero
      (singleCellScenario (Dbl.num (-4000))) 0 0 (Dbl.num (-4000))
      (singleCellScenario_free _ _ _) (by decide) (by decide) rfl,
      ieee_linear_power_underflow]
    have hold : readCell (singleCellScenario (Dbl.num (-4000))).signalStrength 0 0 =
        some (Dbl.num 0) := rfl
    rw [hold, Option.map_some']
    have hng : ¬ (Dbl.num 0).gtZero := by simp [Dbl.gtZero]
    rw [if_neg hng]
  · intro h
    injection h with h
    norm_num at h

/-- Claim C11, amended.  In an obstacle-free environment that holds exactly one
transmitter, of power `P` at the in-bounds cell `c`, and in every double
arithmetic `A` in which `hypot(0, 0)` is zero: the transmitter contributes `P`
at `c` (distance zero: no path loss and no obstacle check, so this holds
whatever the obstacle mask), and the value stored at `c` after `simulate` is
`10 * log10(0.0 + pow(10, P / 10.0))` when that sum is greater than zero and the
value the cell held before otherwise.  Over real arithmetic and under the
dimension invariant the stored value is `P` for every power that is a number. -/
theorem simulate_colocated (A : Arith) (hhyp : (A.hypot 0 0).eqZero) (env : Environment)
    (hfree : ∀ x y : Int, isObstacle env x y = false) (cx cy : Nat) (P : Dbl)
    (hx : (cx : Int) < env.width) (hy : (cy : Int) < env.height)
    (hone : env.accessPoints = [⟨⟨cx, cy⟩, P⟩]) :
    (∀ any : Environment, calculateSignalStrengthIn A any ⟨cx, cy⟩ ⟨⟨cx, cy⟩, P⟩ = P) ∧
    readCell (simulateIn A env).signalStrength cx cy =
      (readCell env.signalStrength cx cy).map (fun old =>
        if (A.add (Dbl.num 0) (A.pow (Dbl.num 10) (A.div P (Dbl.num 10)))).gtZero then
          A.mul (Dbl.num 10)
            (A.log10 (A.add (Dbl.num 0) (A.pow (Dbl.num 10) (A.div P (Dbl.num 10)))))
        else old) ∧
    (∀ p : ℝ, env.WF → P = Dbl.num p →
      readCell (simulate env).signalStrength cx cy = some (Dbl.num p)) := by
  refine ⟨fun any => calculateSignalStrengthIn_colocated A hhyp any _ P,
    readCell_simulateIn_colocated A hhyp env cx cy P (hfree cx cy) hx hy hone, ?_⟩
  intro p hwf hP
  subst hP
  exact readCell_simulate_single env hwf cx cy hx hy (hfree cx cy) _ p hone
    (calculateSignalStrength_colocated env ⟨cx, cy⟩ ⟨⟨cx, cy⟩, Dbl.num p⟩ rfl)

/-- Witness of C11, amended: the transmitter of power `95` at `(2, 1)` of
`colocatedScenario`, in real arithmetic; the stored value is `95`. -/
theorem simulate_colocated_witness :
    (Arith.exact.hypot 0 0).eqZero ∧
    (∀ x y : Int, isObstacle colocatedScenario x y = false) ∧
    ((2 : Nat) : Int) < colocatedScenario.width ∧
    ((1 : Nat) : Int) < colocatedScenario.height ∧
    colocatedScenario.accessPoints = [⟨⟨(2 : Nat), (1 : Nat)⟩, Dbl.num 95⟩] ∧
    colocatedScenario.WF ∧
    readCell (simulate colocatedScenario).signalStrength 2 1 = some (Dbl.num 95) :=
  ⟨exact_hypot_zero, colocatedScenario_free, by decide, by decide, rfl, by decide,
   (simulate_colocated Arith.exact exact_hypot_zero colocatedScenario colocatedScenario_free
     2 1 (Dbl.num 95) (by decide) (by decide) rfl).2.2 95 (by decide) rfl⟩

/-- Claim C12, as stated, fails.  In the 1x1 environment that holds a transmitter
of power `95` at `(0, 0)`, the value stored at the non-obstacle cell `(0, 0)` is
`95`; after `addAccessPoint` of a further transmitter whose power is not a
number the linear sum is not a number, the test `totalSignal > 0` fails and the
stored value is the constructor's `0.0`, which is lower. -/
theorem simulate_drops_with_nan_transmitter :
    (singleCellScenario (Dbl.num 95)).accessPoints ≠ [] ∧
    isObstacle (singleCellScenario (Dbl.num 95)) 0 0 = false ∧
    readCell (simulate (singleCellScenario (Dbl.num 95))).signalStrength 0 0 =
      some (Dbl.num 95) ∧
    readCell (simulate (addAccessPoint (singleCellScenario (Dbl.num 95))
      0 0 Dbl.nan)).signalStrength 0 0 = some (Dbl.num 0) ∧
    ¬ ((95 : ℝ) ≤ 0) := by
  refine ⟨?_, singleCellScenario_free _ _ _, ?_, ?_, by norm_num⟩
  · simp [singleCellScenario, addAccessPoint, Environment.new, isValid]
  · exact readCell_simulate_single (singleCellScenario (Dbl.num 95))
      (by decide) 0 0 (by decide) (by decide) (singleCellScenario_free _ _ _)
      ⟨⟨0, 0⟩, Dbl.num 95⟩ 95 rfl (calculateSignalStrength_colocated _ _ _ rfl)
  · have henv : addAccessPoint (singleCellScenario (Dbl.num 95)) 0 0 Dbl.nan =
        { singleCellScenario (Dbl.num 95) with
          accessPoints := (singleCellScenario (Dbl.num 95)).accessPoints ++
            [⟨⟨0, 0⟩, Dbl.nan⟩] } := rfl
    rw [readCell_simulate_nan_total _ 0 0 (by rw [henv]; exact totalSignal_nan_last _ _ _)]
    rfl

/-- Claim C12, amended.  Over real arithmetic, for every environment that holds
one or more transmitters, all of a power that is a number, and every further
transmitter `t` of a power that is a number, at every non-obstacle cell the
value stored by `simulate` after `addAccessPoint` of `t` is greater than or
equal to the value stored by `simulate` without `t`. -/
theorem simulate_mono_addAccessPoint (env : Environment) (hwf : env.WF) (x y : Nat)
    (hx : (x : Int) < env.width) (hy : (y : Int) < env.height)
    (hobs : isObstacle env x y = false) (hne : env.accessPoints ≠ [])
    (hfin : ∀ ap ∈ env.accessPoints, ∃ p, ap.txPower = Dbl.num p)
    (tx ty : Int) (p : ℝ) :
    ∃ v v' : ℝ,
      readCell (simulate env).signalStrength x y = some (Dbl.num v) ∧
      readCell (simulate (addAccessPoint env tx ty (Dbl.num p))).signalStrength x y =
        some (Dbl.num v') ∧
      v ≤ v' := by
  obtain ⟨S, hS, hSpos⟩ := totalSignal_pos env ⟨x, y⟩ hne hfin
  have hv := readCell_simulate_of_total env hwf x y hx hy hobs S hS hSpos
  by_cases hval : isValid env tx ty = true
  · obtain ⟨s, hs⟩ := calculateSignalStrength_num env ⟨x, y⟩ ⟨⟨tx, ty⟩, Dbl.num p⟩ p rfl
    have henv : addAccessPoint env tx ty (Dbl.num p) =
        { env with accessPoints := env.accessPoints ++ [⟨⟨tx, ty⟩, Dbl.num p⟩] } := by
      simp only [addAccessPoint, hval, if_true]
    have htot : totalSignal (addAccessPoint env tx ty (Dbl.num p)) ⟨x, y⟩ =
        Dbl.num (S + (10 : ℝ) ^ (s / 10)) := by
      rw [henv, totalSignal_append, hS, hs]
      simp [Dbl.add, Dbl.pow, Dbl.div]
    have hpow : 0 < (10 : ℝ) ^ (s / 10) := Real.rpow_pos_of_pos (by norm_num) _
    have hwf' : (addAccessPoint env tx ty (Dbl.num p)).WF := by
      rw [henv]; exact hwf
    have hv' := readCell_simulate_of_total (addAccessPoint env tx ty (Dbl.num p)) hwf' x y
      (by rw [henv]; exact hx) (by rw [henv]; exact hy) (by rw [henv]; exact hobs)
      (S + (10 : ℝ) ^ (s / 10)) htot (by linarith)
    refine ⟨_, _, hv, hv', ?_⟩
    have := Real.logb_le_logb_of_le (b := 10) (by norm_num) hSpos
      (by linarith : S ≤ S + (10 : ℝ) ^ (s / 10))
    linarith
  · have henv : addAccessPoint env tx ty (Dbl.num p) = env := by
      simp only [addAccessPoint, hval, if_false, Bool.false_eq_true]
    rw [henv]
    exact ⟨_, _, hv, hv, le_refl _⟩

/-- Witness of C12, amended: the cell `(1, 0)` of a 2x1 environment with a
transmitter at `(0, 0)`, and a further transmitter of power `50` at `(1, 0)`. -/
theorem simulate_mono_addAccessPoint_witness :
    (addAccessPoint (Environment.new 2 1) 0 0 (Dbl.num 95)).WF ∧
    ((1 : Nat) : Int) < (addAccessPoint (Environment.new 2 1) 0 0 (Dbl.num 95)).width ∧
    ((0 : Nat) : Int) < (addAccessPoint (Environment.new 2 1) 0 0 (Dbl.num 95)).height ∧
    isObstacle (addAccessPoint (Environment.new 2 1) 0 0 (Dbl.num 95)) (1 : Nat) (0 : Nat)
      = false ∧
    (addAccessPoint (Environment.new 2 1) 0 0 (Dbl.num 95)).accessPoints ≠ [] ∧
    (∀ ap ∈ (addAccessPoint (Environment.new 2 1) 0 0 (Dbl.num 95)).accessPoints,
      ∃ p, ap.txPower = Dbl.num p) ∧
    ∃ v v' : ℝ,
      readCell (simulate (addAccessPoint (Environment.new 2 1) 0 0 (Dbl.num 95))).signalStrength
        1 0 = some (Dbl.num v) ∧
      readCell (simulate (addAccessPoint (addAccessPoint (Environment.new 2 1) 0 0 (Dbl.num 95))
        1 0 (Dbl.num 50))).signalStrength 1 0 = some (Dbl.num v') ∧
      v ≤ v' :=
  have hne : (addAccessPoint (Environment.new 2 1) 0 0 (Dbl.num 95)).accessPoints ≠ [] := by
    simp [addAccessPoint, Environment.new, isValid]
  have hfin : ∀ ap ∈ (addAccessPoint (Environment.new 2 1) 0 0 (Dbl.num 95)).accessPoints,
      ∃ p, ap.txPower = Dbl.num p := by
    intro ap hap
    simp [addAccessPoint, Environment.new, isValid] at hap
    exact ⟨95, by rw [hap]⟩
  ⟨by decide, by decide, by decide, by decide, hne, hfin,
   simulate_mono_addAccessPoint (addAccessPoint (Environment.new 2 1) 0 0 (Dbl.num 95))
     (by decide) 1 0 (by decide) (by decide) (by decide) hne hfin 1 0 50⟩

/-- Claim C14.  In the known scenario (10x10, no obstacles, one transmitter of
power `100` at `(0, 0)`, path-loss exponent `4`) `hasObstacleBetween` from
`(0, 0)` to `(3, 0)` is false and the value stored at `(3, 0)` after `simulate`
is `100 - 40 * log10 3`, which lies within `0.01` of `80.92`. -/
theorem knownScenario_value :
    knownScenario.accessPoints = [⟨⟨0, 0⟩, Dbl.num 100⟩] ∧
    (∀ x y : Nat, x < 10 → y < 10 → readCell knownScenario.obstacles x y = some false) ∧
    hasObstacleBetween knownScenario ⟨0, 0⟩ ⟨3, 0⟩ = false ∧
    readCell (simulate knownScenario).signalStrength 3 0 =
      some (Dbl.num (100 - 40 * Real.logb 10 3)) ∧
    |100 - 40 * Real.logb 10 3 - 80.92| < 0.01 := by
  have hlos : hasObstacleBetween knownScenario ⟨0, 0⟩ ⟨3, 0⟩ = false := by decide
  have hcalc : calculateSignalStrength knownScenario ⟨(3 : Nat), (0 : Nat)⟩
      ⟨⟨0, 0⟩, Dbl.num 100⟩ = Dbl.num (100 - 40 * Real.logb 10 3) := by
    rw [calculateSignalStrength_far knownScenario ⟨(3 : Nat), (0 : Nat)⟩ ⟨⟨0, 0⟩, Dbl.num 100⟩ 3
      hypot_three_zero (by norm_num)]
    rw [show hasObstacleBetween knownScenario
      (⟨⟨0, 0⟩, Dbl.num 100⟩ : AccessPoint).location ⟨(3 : Nat), (0 : Nat)⟩ = false from hlos]
    simp only [Bool.false_eq_true, if_false, Dbl.sub]
    congr 1
    ring
  refine ⟨rfl, ?_, hlos, ?_, ?_⟩
  · intro x y hx hy
    interval_cases x <;> interval_cases y <;> rfl
  · exact readCell_simulate_single knownScenario (by decide) 3 0 (by decide) (by decide)
      (by decide) ⟨⟨0, 0⟩, Dbl.num 100⟩ _ rfl hcalc
  · obtain ⟨hlo, hhi⟩ := logb_ten_three_bounds
    rw [abs_lt]
    constructor <;> linarith

/-- Claim C15.  In the obstacle penalty scenario (the known scenario with
obstacles at `(1, 0)` and `(2, 0)`) `hasObstacleBetween` from `(0, 0)` to
`(3, 0)` is true and the value stored at `(3, 0)` after `simulate` is
`100 - 40 * log10 3 - 25`, which lies within `0.01` of `55.92`: the penalty of
`25` is subtracted once although two obstacle cells lie on the path. -/
theorem penaltyScenario_value :
    penaltyScenario.accessPoints = [⟨⟨0, 0⟩, Dbl.num 100⟩] ∧
    isObstacle penaltyScenario 1 0 = true ∧ isObstacle penaltyScenario 2 0 = true ∧
    (⟨1, 0⟩ : Point) ∈ walkedPath ⟨0, 0⟩ ⟨3, 0⟩ ∧ (⟨2, 0⟩ : Point) ∈ walkedPath ⟨0, 0⟩ ⟨3, 0⟩ ∧
    hasObstacleBetween penaltyScenario ⟨0, 0⟩ ⟨3, 0⟩ = true ∧
    readCell (simulate penaltyScenario).signalStrength 3 0 =
      some (Dbl.num (100 - 40 * Real.logb 10 3 - 25)) ∧
    |100 - 40 * Real.logb 10 3 - 25 - 55.92| < 0.01 := by
  have hlos : hasObstacleBetween penaltyScenario ⟨0, 0⟩ ⟨3, 0⟩ = true := by decide
  have hcalc : calculateSignalStrength penaltyScenario ⟨(3 : Nat), (0 : Nat)⟩
      ⟨⟨0, 0⟩, Dbl.num 100⟩ = Dbl.num (100 - 40 * Real.logb 10 3 - 25) := by
    rw [calculateSignalStrength_far penaltyScenario ⟨(3 : Nat), (0 : Nat)⟩
      ⟨⟨0, 0⟩, Dbl.num 100⟩ 3 hypot_three_zero (by norm_num)]
    rw [show hasObstacleBetween penaltyScenario
      (⟨⟨0, 0⟩, Dbl.num 100⟩ : AccessPoint).location ⟨(3 : Nat), (0 : Nat)⟩ = true from hlos]
    simp only [if_true, Dbl.sub]
    congr 1
    ring
  refine ⟨rfl, by decide, by decide, by decide, by decide, hlos, ?_, ?_⟩
  · exact readCell_simulate_single penaltyScenario (by decide) 3 0 (by decide) (by decide)
      (by decide) ⟨⟨0, 0⟩, Dbl.num 100⟩ _ rfl hcalc
  · obtain ⟨hlo, hhi⟩ := logb_ten_three_bounds
    rw [abs_lt]
    constructor <;> linarith

/-! ## Claims about the serializer -/

/-- Claim C16.  For an environment of width `w` and height `h`, the text written
by `saveSignalStrength` consists of exactly `h` lines, each line splits on white
space into exactly `w` tokens, and the token at column `x` of line `y` is the
literal `NaN` if and only if the cell `(x, y)` is an obstacle; otherwise it is
the formatted stored value of the cell.  The formatting of a `double` by
`operator<<` is a parameter: it yields a non-empty text without white space
that is never the capitalised `NaN`. -/
theorem saveSignalStrength_format (fmt : Dbl → List Char) (env : Environment) (hwf : env.WF)
    (hws : ∀ d, ∀ c ∈ fmt d, c.isWhitespace = false) (hne : ∀ d, fmt d ≠ [])
    (hnan : ∀ d, fmt d ≠ nanToken) :
    saveSignalStrength fmt env =
      ((linesOf (saveSignalStrength fmt env)).map (fun l => l ++ ['\n'])).flatten ∧
    ((linesOf (saveSignalStrength fmt env)).length : Int) = env.height ∧
    ∀ y : Nat, (y : Int) < env.height →
      ∃ line, (linesOf (saveSignalStrength fmt env))[y]? = some line ∧
        ((tokensOf line).length : Int) = env.width ∧
        ∀ x : Nat, (x : Int) < env.width →
          ∃ tok, (tokensOf line)[x]? = some tok ∧
            (tok = nanToken ↔ isObstacle env x y = true) ∧
            (isObstacle env x y = false →
              ∃ v, readCell env.signalStrength x y = some v ∧ tok = fmt v) := by
  obtain ⟨hw0, hh0, _, hsig⟩ := hwf
  have hlines := linesOf_saveSignalStrength fmt env hws
  refine ⟨?_, ?_, ?_⟩
  · rw [hlines]
    exact saveSignalStrength_eq fmt env
  · rw [hlines, List.length_map, List.length_range]
    omega
  · intro y hy
    have hy' : y < env.height.toNat := by omega
    refine ⟨(((List.range env.width.toNat).map (fun x => cellToken fmt env x y)).map
      (fun t => t ++ [' '])).flatten, ?_, ?_, ?_⟩
    · rw [hlines, List.getElem?_map, List.getElem?_range hy']
      rfl
    · rw [tokensOf_line fmt env y hws hne, List.length_map, List.length_range]
      omega
    · intro x hx
      have hx' : x < env.width.toNat := by omega
      refine ⟨cellToken fmt env x y, ?_, ?_, ?_⟩
      · rw [tokensOf_line fmt env y hws hne, List.getElem?_map, List.getElem?_range hx']
        rfl
      · unfold cellToken
        by_cases hobs : isObstacle env x y = true
        · simp [hobs]
        · simp only [hobs, if_false, Bool.false_eq_true, iff_false]
          exact hnan _
      · intro hobs
        obtain ⟨v, hv⟩ := readCell_isSome_of_gridDims env.signalStrength env.width.toNat
          env.height.toNat x y hsig hx' hy'
        refine ⟨v, hv, ?_⟩
        unfold cellToken
        simp only [hobs, Bool.false_eq_true, if_false]
        unfold readCell at hv
        rw [List.getD_eq_getElem?_getD (env.signalStrength.getD y []) x, hv]
        rfl

/-- Witness of C16: a 2x2 environment with an obstacle at `(0, 0)` and a
formatting that writes every value as `0`. -/
theorem saveSignalStrength_format_witness :
    (addObstacle (Environment.new 2 2) 0 0).WF ∧
    (∀ d : Dbl, ∀ c ∈ (fun _ : Dbl => ['0']) d, c.isWhitespace = false) ∧
    (∀ d : Dbl, (fun _ : Dbl => ['0']) d ≠ []) ∧
    (∀ d : Dbl, (fun _ : Dbl => ['0']) d ≠ nanToken) ∧
    (saveSignalStrength (fun _ => ['0']) (addObstacle (Environment.new 2 2) 0 0) =
      ((linesOf (saveSignalStrength (fun _ => ['0'])
        (addObstacle (Environment.new 2 2) 0 0))).map (fun l => l ++ ['\n'])).flatten ∧
    ((linesOf (saveSignalStrength (fun _ => ['0'])
      (addObstacle (Environment.new 2 2) 0 0))).length : Int) =
        (addObstacle (Environment.new 2 2) 0 0).height ∧
    ∀ y : Nat, (y : Int) < (addObstacle (Environment.new 2 2) 0 0).height →
      ∃ line, (linesOf (saveSignalStrength (fun _ => ['0'])
          (addObstacle (Environment.new 2 2) 0 0)))[y]? = some line ∧
        ((tokensOf line).length : Int) = (addObstacle (Environment.new 2 2) 0 0).width ∧
        ∀ x : Nat, (x : Int) < (addObstacle (Environment.new 2 2) 0 0).width →
          ∃ tok, (tokensOf line)[x]? = some tok ∧
            (tok = nanToken ↔ isObstacle (addObstacle (Environment.new 2 2) 0 0) x y = true) ∧
            (isObstacle (addObstacle (Environment.new 2 2) 0 0) x y = false →
              ∃ v, readCell (addObstacle (Environment.new 2 2) 0 0).signalStrength x y = some v ∧
                tok = (fun _ : Dbl => ['0']) v)) :=
  have hws : ∀ d : Dbl, ∀ c ∈ (fun _ : Dbl => ['0']) d, c.isWhitespace = false := by
    intro d c hc
    have hceq : c = '0' := by simpa using hc
    rw [hceq]
    decide
  have hne : ∀ d : Dbl, (fun _ : Dbl => ['0']) d ≠ [] := by
    intro d
    simp
  have hnan : ∀ d : Dbl, (fun _ : Dbl => ['0']) d ≠ nanToken := by
    intro d
    simp [nanToken]
  ⟨by decide, hws, hne, hnan,
   saveSignalStrength_format (fun _ => ['0']) (addObstacle (Environment.new 2 2) 0 0)
     (by decide) hws hne hnan⟩

/-! ## Claims about the visualizer -/

theorem getColorFromSignal_num (s : ℝ) :
    getColorFromSignal (Dbl.num s) =
      ⟨toUint8 (Dbl.num ((1 - (s + 100) / 100) * 255)).toInt,
       toUint8 (Dbl.num ((s + 100) / 100 * 255)).toInt, 0, 255⟩ := by
  unfold getColorFromSignal
  simp only [Dbl.isNaN, Bool.false_eq_true, if_false, Dbl.sub, Dbl.div, Dbl.mul]
  have h100 : ¬ ((0 : ℝ) - -100 = 0) := by norm_num
  simp only [h100, if_false, Dbl.mul, Dbl.sub]
  have e1 : (s - -100) / (0 - -100) = (s + 100) / 100 := by norm_num
  rw [e1]
  rfl

/-- Claim C17 fails on the code: `getColorFromSignal` does not saturate.  The
`int` values of red and green are converted to 8-bit channels modulo `256`, so
the signal `50` (above the bound) gives the colour `(129, 126, 0)` instead of
`(0, 255, 0)`, the signal `107` (the strongest value the simulator's own
`main` produces) gives `(240, 15, 0)`, and the signal `-150` (below the bound)
gives `(126, 129, 0)` instead of `(255, 0, 0)`; at the bounds `0` and `-100`
themselves the colours are `(0, 255, 0)` and `(255, 0, 0)`. -/
theorem getColorFromSignal_wraps :
    getColorFromSignal (Dbl.num 50) = ⟨129, 126, 0, 255⟩ ∧
    getColorFromSignal (Dbl.num 107) = ⟨240, 15, 0, 255⟩ ∧
    getColorFromSignal (Dbl.num (-150)) = ⟨126, 129, 0, 255⟩ ∧
    getColorFromSignal (Dbl.num 0) = ⟨0, 255, 0, 255⟩ ∧
    getColorFromSignal (Dbl.num (-100)) = ⟨255, 0, 0, 255⟩ := by
  have hc1 : ⌈(-127.5 : ℝ)⌉ = -127 := by
    rw [Int.ceil_eq_iff]; norm_num
  have hf1 : ⌊(382.5 : ℝ)⌋ = 382 := by
    rw [Int.floor_eq_iff]; norm_num
  have hc2 : ⌈(-272.85 : ℝ)⌉ = -272 := by
    rw [Int.ceil_eq_iff]; norm_num
  have hf2 : ⌊(527.85 : ℝ)⌋ = 527 := by
    rw [Int.floor_eq_iff]; norm_num
  refine ⟨?_, ?_, ?_, ?_, ?_⟩
  · rw [getColorFromSignal_num]
    have e1 : (1 - ((50 : ℝ) + 100) / 100) * 255 = -127.5 := by norm_num
    have e2 : ((50 : ℝ) + 100) / 100 * 255 = 382.5 := by norm_num
    rw [e1, e2]
    have n1 : ¬ (0 : ℝ) ≤ -127.5 := by norm_num
    have n2 : (0 : ℝ) ≤ 382.5 := by norm_num
    simp only [Dbl.toInt, n1, n2, if_true, if_false, hc1, hf1]
    decide
  · rw [getColorFromSignal_num]
    have e1 : (1 - ((107 : ℝ) + 100) / 100) * 255 = -272.85 := by norm_num
    have e2 : ((107 : ℝ) + 100) / 100 * 255 = 527.85 := by norm_num
    rw [e1, e2]
    have n1 : ¬ (0 : ℝ) ≤ -272.85 := by norm_num
    have n2 : (0 : ℝ) ≤ 527.85 := by norm_num
    simp only [Dbl.toInt, n1, n2, if_true, if_false, hc2, hf2]
    decide
  · rw [getColorFromSignal_num]
    have e1 : (1 - ((-150 : ℝ) + 100) / 100) * 255 = 382.5 := by norm_num
    have e2 : ((-150 : ℝ) + 100) / 100 * 255 = -127.5 := by norm_num
    rw [e1, e2]
    have n1 : ¬ (0 : ℝ) ≤ -127.5 := by norm_num
    have n2 : (0 : ℝ) ≤ 382.5 := by norm_num
    simp only [Dbl.toInt, n1, n2, if_true, if_false, hc1, hf1]
    decide
  · rw [getColorFromSignal_num]
    have e1 : (1 - ((0 : ℝ) + 100) / 100) * 255 = ((0 : Int) : ℝ) := by norm_num
    have e2 : ((0 : ℝ) + 100) / 100 * 255 = ((255 : Int) : ℝ) := by norm_num
    rw [e1, e2]
    simp only [Dbl.toInt, Int.cast_nonneg, Int.floor_intCast]
    decide
  · rw [getColorFromSignal_num]
    have e1 : (1 - ((-100 : ℝ) + 100) / 100) * 255 = ((255 : Int) : ℝ) := by norm_num
    have e2 : ((-100 : ℝ) + 100) / 100 * 255 = ((0 : Int) : ℝ) := by norm_num
    rw [e1, e2]
    simp only [Dbl.toInt, Int.cast_nonneg, Int.floor_intCast]
    decide

/-! ## Claims about the invariants of the environment -/

/-- Claim C18.  An environment constructed with width `w ≥ 0` and height
`h ≥ 0` has an obstacle mask and a signal grid of exactly `h` rows of exactly `w`
entries, each of `addObstacle`, `addAccessPoint` and `simulate` preserves this
with any arguments, and so it holds after every sequence of calls. -/
theorem dimension_invariant (w h : Int) (hw : 0 ≤ w) (hh : 0 ≤ h) :
    (GridDims (Environment.new w h).obstacles w.toNat h.toNat ∧
      GridDims (Environment.new w h).signalStrength w.toNat h.toNat) ∧
    (∀ env : Environment, env.WF → ∀ (x y : Int) (p : Dbl),
      (addObstacle env x y).WF ∧ (addAccessPoint env x y p).WF ∧ (simulate env).WF) ∧
    (∀ calls : List Call,
      (runCalls (Environment.new w h) calls).width = w ∧
      (runCalls (Environment.new w h) calls).height = h ∧
      GridDims (runCalls (Environment.new w h) calls).obstacles w.toNat h.toNat ∧
      GridDims (runCalls (Environment.new w h) calls).signalStrength w.toNat h.toNat) := by
  refine ⟨⟨gridDims_replicate _ _ _, gridDims_replicate _ _ _⟩, ?_, ?_⟩
  · intro env hwf x y p
    exact ⟨wf_addObstacle env hwf x y, wf_addAccessPoint env hwf x y p, wf_simulate env hwf⟩
  · intro calls
    obtain ⟨ew, eh⟩ := runCalls_dims (Environment.new w h) calls
    obtain ⟨_, _, hobs, hsig⟩ := wf_runCalls (Environment.new w h) (wf_new w h hw hh) calls
    rw [ew, eh] at hobs hsig
    exact ⟨ew, eh, hobs, hsig⟩

/-- Witness of C18: width `3` and height `2`. -/
theorem dimension_invariant_witness :
    (0 : Int) ≤ 3 ∧ (0 : Int) ≤ 2 ∧
    ((GridDims (Environment.new 3 2).obstacles (3 : Int).toNat (2 : Int).toNat ∧
      GridDims (Environment.new 3 2).signalStrength (3 : Int).toNat (2 : Int).toNat) ∧
    (∀ env : Environment, env.WF → ∀ (x y : Int) (p : Dbl),
      (addObstacle env x y).WF ∧ (addAccessPoint env x y p).WF ∧ (simulate env).WF) ∧
    (∀ calls : List Call,
      (runCalls (Environment.new 3 2) calls).width = 3 ∧
      (runCalls (Environment.new 3 2) calls).height = 2 ∧
      GridDims (runCalls (Environment.new 3 2) calls).obstacles (3 : Int).toNat
        (2 : Int).toNat ∧
      GridDims (runCalls (Environment.new 3 2) calls).signalStrength (3 : Int).toNat
        (2 : Int).toNat)) :=
  ⟨by decide, by decide, dimension_invariant 3 2 (by decide) (by decide)⟩

/-- Claim C19.  Every cell tested by `hasObstacleBetween a b` lies in the
axis-aligned bounding box of `a` and `b`; therefore, when `a` and `b` are both
in bounds, the tested cell is in bounds, the `isValid` guard of `isObstacle`
holds for it and the index `obstacles[y][x]` is defined (`int` arithmetic
without overflow). -/
theorem testedCells_in_bounding_box (env : Environment) (a b p : Point)
    (hp : p ∈ testedCells env a b) :
    (min a.x b.x ≤ p.x ∧ p.x ≤ max a.x b.x ∧ min a.y b.y ≤ p.y ∧ p.y ≤ max a.y b.y) ∧
    (isValid env a.x a.y = true → isValid env b.x b.y = true →
      isValid env p.x p.y = true ∧
      (env.WF → ∃ v, readCell env.obstacles p.x.toNat p.y.toNat = some v)) := by
  have hbox := walkedPath_in_box a b p (testedCells_subset_walkedPath env a b p hp)
  refine ⟨hbox, ?_⟩
  intro ha hb
  rw [isValid_iff] at ha hb
  obtain ⟨h1, h2, h3, h4⟩ := hbox
  have hpv : 0 ≤ p.x ∧ p.x < env.width ∧ 0 ≤ p.y ∧ p.y < env.height := by
    rw [min_def] at h1 h3
    rw [max_def] at h2 h4
    refine ⟨?_, ?_, ?_, ?_⟩
    · split_ifs at h1 <;> omega
    · split_ifs at h2 <;> omega
    · split_ifs at h3 <;> omega
    · split_ifs at h4 <;> omega
  refine ⟨(isValid_iff env p.x p.y).mpr hpv, ?_⟩
  intro hwf
  obtain ⟨_, _, hobs, _⟩ := hwf
  exact readCell_isSome_of_gridDims env.obstacles env.width.toNat env.height.toNat
    p.x.toNat p.y.toNat hobs (by omega) (by omega)

/-- Witness of C19: the cell `(1, 1)` tested between `(0, 0)` and `(2, 1)` in a
3x3 environment. -/
theorem testedCells_in_bounding_box_witness :
    (⟨1, 1⟩ : Point) ∈ testedCells (Environment.new 3 3) ⟨0, 0⟩ ⟨2, 1⟩ ∧
    ((min (⟨0, 0⟩ : Point).x (⟨2, 1⟩ : Point).x ≤ (⟨1, 1⟩ : Point).x ∧
      (⟨1, 1⟩ : Point).x ≤ max (⟨0, 0⟩ : Point).x (⟨2, 1⟩ : Point).x ∧
      min (⟨0, 0⟩ : Point).y (⟨2, 1⟩ : Point).y ≤ (⟨1, 1⟩ : Point).y ∧
      (⟨1, 1⟩ : Point).y ≤ max (⟨0, 0⟩ : Point).y (⟨2, 1⟩ : Point).y) ∧
    (isValid (Environment.new 3 3) (⟨0, 0⟩ : Point).x (⟨0, 0⟩ : Point).y = true →
      isValid (Environment.new 3 3) (⟨2, 1⟩ : Point).x (⟨2, 1⟩ : Point).y = true →
      isValid (Environment.new 3 3) (⟨1, 1⟩ : Point).x (⟨1, 1⟩ : Point).y = true ∧
      ((Environment.new 3 3).WF →
        ∃ v, readCell (Environment.new 3 3).obstacles (⟨1, 1⟩ : Point).x.toNat
          (⟨1, 1⟩ : Point).y.toNat = some v))) :=
  ⟨by decide,
   testedCells_in_bounding_box (Environment.new 3 3) ⟨0, 0⟩ ⟨2, 1⟩ ⟨1, 1⟩ (by decide)⟩

/-- Claim C20.  Starting from a freshly constructed environment, after any
sequence of `addObstacle`, `addAccessPoint` and `simulate` calls with arbitrary
arguments, every stored transmitter location `(x, y)` satisfies
`0 ≤ x < width` and `0 ≤ y < height`. -/
theorem accessPoints_in_bounds (w h : Int) (calls : List Call) (ap : AccessPoint)
    (hap : ap ∈ (runCalls (Environment.new w h) calls).accessPoints) :
    (0 ≤ ap.location.x ∧ ap.location.x < (runCalls (Environment.new w h) calls).width ∧
      0 ≤ ap.location.y ∧ ap.location.y < (runCalls (Environment.new w h) calls).height) ∧
    (runCalls (Environment.new w h) calls).width = w ∧
    (runCalls (Environment.new w h) calls).height = h := by
  have hinit : TransmittersValid (Environment.new w h) := by
    intro ap' hap'
    exact absurd hap' (List.not_mem_nil _)
  have hv := transmittersValid_runCalls (Environment.new w h) hinit calls ap hap
  rw [isValid_iff] at hv
  obtain ⟨ew, eh⟩ := runCalls_dims (Environment.new w h) calls
  exact ⟨hv, ew, eh⟩

/-- Witness of C20: a 3x2 environment after an in-bounds transmitter, an
out-of-bounds transmitter, an obstacle and a simulation. -/
theorem accessPoints_in_bounds_witness :
    (⟨⟨2, 1⟩, Dbl.num 95⟩ : AccessPoint) ∈
      (runCalls (Environment.new 3 2)
        [Call.addAccessPoint 2 1 (Dbl.num 95), Call.addAccessPoint 3 1 (Dbl.num 95),
          Call.addObstacle 0 0, Call.simulate]).accessPoints ∧
    ((0 ≤ (⟨⟨2, 1⟩, Dbl.num 95⟩ : AccessPoint).location.x ∧
      (⟨⟨2, 1⟩, Dbl.num 95⟩ : AccessPoint).location.x <
        (runCalls (Environment.new 3 2)
          [Call.addAccessPoint 2 1 (Dbl.num 95), Call.addAccessPoint 3 1 (Dbl.num 95),
            Call.addObstacle 0 0, Call.simulate]).width ∧
      0 ≤ (⟨⟨2, 1⟩, Dbl.num 95⟩ : AccessPoint).location.y ∧
      (⟨⟨2, 1⟩, Dbl.num 95⟩ : AccessPoint).location.y <
        (runCalls (Environment.new 3 2)
          [Call.addAccessPoint 2 1 (Dbl.num 95), Call.addAccessPoint 3 1 (Dbl.num 95),
            Call.addObstacle 0 0, Call.simulate]).height) ∧
    (runCalls (Environment.new 3 2)
      [Call.addAccessPoint 2 1 (Dbl.num 95), Call.addAccessPoint 3 1 (Dbl.num 95),
        Call.addObstacle 0 0, Call.simulate]).width = 3 ∧
    (runCalls (Environment.new 3 2)
      [Call.addAccessPoint 2 1 (Dbl.num 95), Call.addAccessPoint 3 1 (Dbl.num 95),
        Call.addObstacle 0 0, Call.simulate]).height = 2) :=
  have hmem : (⟨⟨2, 1⟩, Dbl.num 95⟩ : AccessPoint) ∈
      (runCalls (Environment.new 3 2)
        [Call.addAccessPoint 2 1 (Dbl.num 95), Call.addAccessPoint 3 1 (Dbl.num 95),
          Call.addObstacle 0 0, Call.simulate]).accessPoints := by
    have hacc : (runCalls (Environment.new 3 2)
        [Call.addAccessPoint 2 1 (Dbl.num 95), Call.addAccessPoint 3 1 (Dbl.num 95),
          Call.addObstacle 0 0, Call.simulate]).accessPoints = [⟨⟨2, 1⟩, Dbl.num 95⟩] := by
      simp only [runCalls, List.foldl_cons, List.foldl_nil, Call.run]
      rw [(simulate_frame _).2.2.2]
      rfl
    rw [hacc]
    exact List.mem_singleton_self _
  ⟨hmem, accessPoints_in_bounds 3 2 _ _ hmem⟩

end RfSim
